import Mathlib

/-!
fn-ts: the caption transcript fetcher (`transcribe` and `transcript` copies).

A shallow embedding of `src/transcribe/api.go` and `src/transcript/api.go`.

* Go strings are Lean `String`s; a nil slice and an empty slice are both `[]`.
* A Go error is `none` (or `Except.error` with the message where the message matters).
* The Go standard library is modelled as far as the program uses it:
  `encoding/xml` (`xml.Unmarshal` into a `[]TranscriptEntry`), `strconv.ParseFloat`,
  `strings.TrimSpace`, `strings.ReplaceAll`, the three regular expressions of the
  program, and `http.Get` followed by `io.ReadAll`.
* Logging and printing (`logger.Printf`, `fmt.Println`, the JSON and dictionary
  demonstration in `Get`) have no effect on any returned value and are left out.
-/

/-! ## float64 -/

/-- An IEEE-754 binary64 value by its three fields: the sign bit, the biased
exponent (0..2047) and the fraction (below 2^52). -/
structure Float64 where
  sign : Bool
  exp : Nat
  frac : Nat
deriving DecidableEq, Repr

namespace Float64

/-- The zero value of a Go `float64` (+0). -/
def zero : Float64 := ⟨false, 0, 0⟩

instance : OfNat Float64 0 := ⟨zero⟩

instance : Inhabited Float64 := ⟨zero⟩

def isNaN (x : Float64) : Bool := x.exp == 2047 && x.frac != 0

def isZero (x : Float64) : Bool := x.exp == 0 && x.frac == 0

/-- The magnitude as one number: the order of finite non-negative floats is the
order of their (exponent, fraction) pairs. -/
def mag (x : Float64) : Nat := x.exp * 2 ^ 52 + x.frac

/-- Go's `x <= y` on float64: false when either side is NaN, -0 equals +0. -/
def le (x y : Float64) : Bool :=
  !x.isNaN && !y.isNaN &&
    (if x.isZero && y.isZero then true
     else match x.sign, y.sign with
       | false, false => x.mag ≤ y.mag
       | true, true => y.mag ≤ x.mag
       | true, false => true
       | false, true => false)

instance : LE Float64 := ⟨fun x y => le x y = true⟩

instance (x y : Float64) : Decidable (x ≤ y) := inferInstanceAs (Decidable (le x y = true))

end Float64

/-! ## encoding/xml: tokens -/

namespace xml

/-- Go `xml.Name`. -/
structure Name where
  Space : String
  Local : String
deriving DecidableEq, Repr

/-- Go `xml.Attr`. -/
structure Attr where
  Name : Name
  Value : String
deriving DecidableEq, Repr

/-- Go `xml.Token`: what `Decoder.Token` returns. -/
inductive Token where
  | StartElement (name : Name) (attr : List Attr)
  | EndElement (name : Name)
  | CharData (data : String)
  | Comment (data : String)
  | ProcInst (target : String) (inst : String)
  | Directive (data : String)
deriving DecidableEq, Repr

/-- The loop of `Decoder.Skip` with its `depth` counter: reads tokens up to the end
element that closes the element already opened. The argument is what `d.Token()`
will still deliver; when it is used up `d.Token()` returns its error and so does
`Skip` (`none`). -/
def skipLoop : Nat → List Token → Option (List Token)
  | _, [] => none
  | depth, .StartElement _ _ :: rest => skipLoop (depth + 1) rest
  | depth, .EndElement _ :: rest =>
      if depth = 0 then some rest else skipLoop (depth - 1) rest
  | depth, _ :: rest => skipLoop depth rest

/-- Go `Decoder.Skip`. -/
def Skip (d : List Token) : Option (List Token) := skipLoop 0 d

/-- The loop "Find start element if we need it" at the head of `Decoder.unmarshal`:
tokens are read until the first `StartElement`. -/
def findStart : List Token → Option (Name × List Attr × List Token)
  | [] => none
  | .StartElement name attr :: rest => some (name, attr, rest)
  | _ :: rest => findStart rest

/-- The loop "Find end element. Process sub-elements along the way." of
`Decoder.unmarshal` for a destination that saves character data and has no
element fields (`saveData` valid, every `StartElement` skipped): the string field
and the float field of the `transcript` copy, and the `transcribe` struct itself.
Returns the accumulated character data and the tokens left. Each round reads at
least one token; the first argument bounds the number of rounds. -/
def readCharData : Nat → String → List Token → Option (String × List Token)
  | 0, _, _ => none
  | _ + 1, _, [] => none
  | n + 1, data, .StartElement _ _ :: rest =>
      match Skip rest with
      | none => none
      | some rest1 => readCharData n data rest1
  | _ + 1, data, .EndElement _ :: rest => some (data, rest)
  | n + 1, data, .CharData t :: rest => readCharData n (data ++ t) rest
  | n + 1, data, _ :: rest => readCharData n data rest

end xml

/-! ## strings.TrimSpace and the parts of the library passed as parameters -/

/-- Go `unicode.IsSpace`. -/
def isSpace (c : Char) : Bool :=
  let r := c.toNat
  (0x09 ≤ r && r ≤ 0x0D) || r == 0x20 || r == 0x85 || r == 0xA0 || r == 0x1680 ||
    (0x2000 ≤ r && r ≤ 0x200A) || r == 0x2028 || r == 0x2029 || r == 0x202F ||
    r == 0x205F || r == 0x3000

/-- Go `strings.TrimSpace`. -/
def TrimSpace (s : String) : String :=
  ⟨((s.data.dropWhile isSpace).reverse.dropWhile isSpace).reverse⟩

/-- The two library functions whose full behaviour on arbitrary text is not
reproduced in this file. Theorems that hold for every input take them as a
parameter; `goStd` below gives them on a documented fragment, for evaluation.

* `Token s`: the tokens `xml.NewDecoder(bytes.NewReader([]byte(s))).Token()`
  delivers, in order, before its first error (`io.EOF` at the end of a complete
  document, a `*SyntaxError` otherwise).
* `ParseFloat s`: `strconv.ParseFloat(s, 64)`, `none` when it returns an error. -/
structure Stdlib where
  Token : String → List xml.Token
  ParseFloat : String → Option Float64

/-- The `reflect.Float64` case of `copyValue` in `encoding/xml`: empty data sets
the field to 0, otherwise the trimmed data goes through `strconv.ParseFloat`. -/
def copyFloat (lib : Stdlib) (src : String) : Option Float64 :=
  if src = "" then some 0 else lib.ParseFloat (TrimSpace src)

/-! ## src/transcribe/api.go: the parser -/

namespace transcribe

/-- `TranscriptEntry` of src/transcribe/api.go, lines 28-32: `Text` is tagged
`xml:",chardata"`, `Start` is `xml:"start,attr"`, `Duration` is `xml:"dur,attr"`. -/
structure TranscriptEntry where
  Text : String
  Start : Float64
  Duration : Float64
deriving DecidableEq, Repr

/-- The loop "Assign attributes" of `Decoder.unmarshal` (struct case) for the
tagged `TranscriptEntry`: every attribute is compared with every field in
declaration order; an attribute field whose name equals the attribute's local
name (the fields declare no namespace) receives the value through
`unmarshalAttr`, that is `copyValue`. -/
def assignAttrs (lib : Stdlib) (e : TranscriptEntry) : List xml.Attr → Option TranscriptEntry
  | [] => some e
  | a :: rest =>
      match (if a.Name.Local = "start" then
               (copyFloat lib a.Value).map (fun x => { e with Start := x })
             else some e) with
      | none => none
      | some e1 =>
          match (if a.Name.Local = "dur" then
                   (copyFloat lib a.Value).map (fun x => { e1 with Duration := x })
                 else some e1) with
          | none => none
          | some e2 => assignAttrs lib e2 rest

/-- The function `Decoder.unmarshal` on a `TranscriptEntry` value (a new zero
element of the slice) for the start element with attributes `attr`, `d` being the
tokens after it: attributes first, then the element's content up to its end
element, then the saved character data is copied into `Text`. -/
def unmarshalEntry (lib : Stdlib) (attr : List xml.Attr) (d : List xml.Token) :
    Option TranscriptEntry :=
  match assignAttrs lib ⟨"", 0, 0⟩ attr with
  | none => none
  | some e =>
      match xml.readCharData (d.length + 1) "" d with
      | none => none
      | some (data, _) => some { e with Text := data }

/-- The call `xml.Unmarshal([]byte(data), &v)` for a `[]TranscriptEntry` holding
`v`: `unmarshal` finds the first start element, and its `reflect.Slice` case
grows the slice by one element (`n := v.Len()`, `v.SetLen(n + 1)`) and decodes
that start element into the new `v.Index(n)`; nothing after the element's end is
read. The result is the slice afterwards; `none` is a non-nil error. -/
def Unmarshal (lib : Stdlib) (data : String) (v : List TranscriptEntry) :
    Option (List TranscriptEntry) :=
  match xml.findStart (lib.Token data) with
  | none => none
  | some (_, attr, rest) =>
      match unmarshalEntry lib attr rest with
      | none => none
      | some e => some (v ++ [e])

/-- `TranscriptParser` of src/transcribe/api.go. -/
structure TranscriptParser where
  PlainData : String
deriving DecidableEq, Repr

/-- `(*TranscriptParser).parse`, src/transcribe/api.go lines 121-131: the entries on
success, nil when `xml.Unmarshal` returns an error (the error is logged).
`entries` is declared without a value, so the slice handed over is nil. -/
def TranscriptParser.parse (lib : Stdlib) (parser : TranscriptParser) : List TranscriptEntry :=
  match Unmarshal lib parser.PlainData [] with
  | none => []
  | some entries => entries

/-- `parseTranscript`, src/transcribe/api.go lines 113-119. -/
def parseTranscript (lib : Stdlib) (plainData : String) : List TranscriptEntry :=
  TranscriptParser.parse lib ⟨plainData⟩

end transcribe

/-! ## src/transcript/api.go: the parser -/

namespace transcript

/-- `TranscriptEntry` of src/transcript/api.go, lines 16-20: no struct tags, so
`encoding/xml` maps each field to a child element named like the field. -/
structure TranscriptEntry where
  Text : String
  Start : Float64
  Duration : Float64
deriving DecidableEq, Repr

/-- The loop "Find end element. Process sub-elements along the way." of
`Decoder.unmarshal` for the untagged `TranscriptEntry`: no field saves character
data; a child element whose local name is `Text`, `Start` or `Duration` is
decoded into that field by `unmarshalPath` (a recursive `unmarshal` on a string
or float64, which reads the child's character data and then `copyValue`s it),
every other child is skipped. The first argument bounds the number of rounds. -/
def readStruct (lib : Stdlib) :
    Nat → TranscriptEntry → List xml.Token → Option (TranscriptEntry × List xml.Token)
  | 0, _, _ => none
  | _ + 1, _, [] => none
  | n + 1, e, .StartElement name _ :: rest =>
      if name.Local = "Text" then
        match xml.readCharData (rest.length + 1) "" rest with
        | none => none
        | some (data, rest1) => readStruct lib n { e with Text := data } rest1
      else if name.Local = "Start" then
        match xml.readCharData (rest.length + 1) "" rest with
        | none => none
        | some (data, rest1) =>
            match copyFloat lib data with
            | none => none
            | some x => readStruct lib n { e with Start := x } rest1
      else if name.Local = "Duration" then
        match xml.readCharData (rest.length + 1) "" rest with
        | none => none
        | some (data, rest1) =>
            match copyFloat lib data with
            | none => none
            | some x => readStruct lib n { e with Duration := x } rest1
      else
        match xml.Skip rest with
        | none => none
        | some rest1 => readStruct lib n e rest1
  | _ + 1, e, .EndElement _ :: rest => some (e, rest)
  | n + 1, e, _ :: rest => readStruct lib n e rest

/-- The function `Decoder.unmarshal` on an untagged `TranscriptEntry` value: the
struct has no attribute field, so the attributes of the start element are
ignored, and no character-data field, so nothing is copied at the end. -/
def unmarshalEntry (lib : Stdlib) (_attr : List xml.Attr) (d : List xml.Token) :
    Option TranscriptEntry :=
  match readStruct lib (d.length + 1) ⟨"", 0, 0⟩ d with
  | none => none
  | some (e, _) => some e

/-- The call `xml.Unmarshal([]byte(data), &v)` for a `[]TranscriptEntry` holding
`v`, as in the `transcribe` copy: one element is appended and the first start
element is decoded into it. -/
def Unmarshal (lib : Stdlib) (data : String) (v : List TranscriptEntry) :
    Option (List TranscriptEntry) :=
  match xml.findStart (lib.Token data) with
  | none => none
  | some (_, attr, rest) =>
      match unmarshalEntry lib attr rest with
      | none => none
      | some e => some (v ++ [e])

/-- `TranscriptParser` of src/transcript/api.go. -/
structure TranscriptParser where
  PlainData : String
deriving DecidableEq, Repr

/-- `(*TranscriptParser).parse`, src/transcript/api.go lines 87-95: the entries on
success, nil when `xml.Unmarshal` returns an error (the error is logged).
`entries` is declared without a value, so the slice handed over is nil. -/
def TranscriptParser.parse (lib : Stdlib) (parser : TranscriptParser) : List TranscriptEntry :=
  match Unmarshal lib parser.PlainData [] with
  | none => []
  | some entries => entries

/-- `parseTranscript`, src/transcript/api.go lines 80-85. -/
def parseTranscript (lib : Stdlib) (plainData : String) : List TranscriptEntry :=
  TranscriptParser.parse lib ⟨plainData⟩

end transcript

/-! ## The library on a fragment: tokens of plain XML, decimal floats -/

namespace xml

/-- Go `isNameByte` of encoding/xml. -/
def isNameByte (c : Char) : Bool :=
  ('A' ≤ c && c ≤ 'Z') || ('a' ≤ c && c ≤ 'z') || ('0' ≤ c && c ≤ '9') ||
    c == '_' || c == ':' || c == '.' || c == '-'

/-- An ASCII character that may start an XML name (`isName`, table `first`), the
colon left out. -/
def isNameStart (c : Char) : Bool :=
  ('A' ≤ c && c ≤ 'Z') || ('a' ≤ c && c ≤ 'z') || c == '_'

/-- Go `isInCharacterRange`: the characters XML allows in a document. -/
def isInCharacterRange (c : Char) : Bool :=
  let r := c.toNat
  r == 0x09 || r == 0x0A || r == 0x0D || (0x20 ≤ r && r ≤ 0xD7FF) ||
    (0xE000 ≤ r && r ≤ 0xFFFD) || (0x10000 ≤ r && r ≤ 0x10FFFF)

/-- Go `Decoder.space`: skips spaces, carriage returns, newlines and tabs. -/
def space (cs : List Char) : List Char :=
  cs.dropWhile (fun c => c == ' ' || c == '\r' || c == '\n' || c == '\t')

/-- Go `Decoder.nsname` on the fragment: the longest run of name bytes, which must
start like a name. A name with a colon, or one that runs into a non-ASCII
character, is outside the fragment (`none`). -/
def nsname (cs : List Char) : Option (String × List Char) :=
  let run := cs.takeWhile isNameByte
  let rest := cs.dropWhile isNameByte
  match run with
  | [] => none
  | c :: _ =>
      if !isNameStart c || run.contains ':' then none
      else match rest with
        | r :: _ => if r.toNat < 128 then some (⟨run⟩, rest) else none
        | [] => some (⟨run⟩, rest)

/-- Go `Decoder.text(quote, false)` on the fragment. With `quote = none` it reads
character data up to the next `<` (left unread) or the end of input; with
`quote = some q` it reads an attribute value up to the closing `q`. The five
predefined entities are decoded. `none` is a syntax error (a `<` inside a quoted
value, the sequence `]]>`, a character outside the XML range, an unknown entity,
an unterminated value) or input outside the fragment (a numeric character
reference, a carriage return). -/
def text (quote : Option Char) : List Char → List Char → Option (String × List Char)
  | acc, [] => if quote.isNone then some (⟨acc.reverse⟩, []) else none
  | acc, '&' :: 'l' :: 't' :: ';' :: rest => text quote ('<' :: acc) rest
  | acc, '&' :: 'g' :: 't' :: ';' :: rest => text quote ('>' :: acc) rest
  | acc, '&' :: 'a' :: 'm' :: 'p' :: ';' :: rest => text quote ('&' :: acc) rest
  | acc, '&' :: 'a' :: 'p' :: 'o' :: 's' :: ';' :: rest => text quote ('\'' :: acc) rest
  | acc, '&' :: 'q' :: 'u' :: 'o' :: 't' :: ';' :: rest => text quote ('"' :: acc) rest
  | acc, c :: rest =>
      if c == '<' then
        (if quote.isNone then some (⟨acc.reverse⟩, c :: rest) else none)
      else if quote == some c then some (⟨acc.reverse⟩, rest)
      else if c == '&' || c == '\r' || !isInCharacterRange c then none
      else if c == ']' && rest.take 2 == [']', '>'] then none
      else text quote (c :: acc) rest

/-- The attribute loop of `Decoder.rawToken` for a start tag, after the element
name: returns the attributes, whether the tag ended in `/>`, and the input after
the tag. An attribute named `xmlns` is outside the fragment. -/
def attrs : Nat → List Attr → List Char → Option (List Attr × Bool × List Char)
  | 0, _, _ => none
  | n + 1, acc, cs =>
      match space cs with
      | [] => none
      | '/' :: rest =>
          (match rest with
           | '>' :: rest1 => some (acc.reverse, true, rest1)
           | _ => none)
      | '>' :: rest => some (acc.reverse, false, rest)
      | c :: rest =>
          match nsname (c :: rest) with
          | none => none
          | some (name, cs1) =>
              if name = "xmlns" then none
              else match space cs1 with
                | '=' :: cs2 =>
                    (match space cs2 with
                     | q :: cs3 =>
                         if q == '"' || q == '\'' then
                           match text (some q) [] cs3 with
                           | none => none
                           | some (value, cs4) => attrs n (⟨⟨"", name⟩, value⟩ :: acc) cs4
                         else none
                     | [] => none)
                | _ => none

/-- Go `Decoder.Token` in strict mode, run until its first error, on the
fragment: start tags with quoted attributes, end tags, empty-element tags and
character data with the five predefined entities, in ASCII names without
namespaces. `stk` is the stack of open elements that `Token` keeps to check
every end tag against its start tag. The list ends where `Token` returns an
error, or where the input leaves the fragment (a comment, processing
instruction, directive or CDATA section). The first argument bounds the number
of tokens. -/
def tokens : Nat → List String → List Char → List Token
  | 0, _, _ => []
  | _ + 1, _, [] => []
  | n + 1, stk, '<' :: '/' :: cs =>
      match nsname cs with
      | none => []
      | some (name, cs1) =>
          match space cs1, stk with
          | '>' :: cs2, top :: stk1 =>
              if top = name then .EndElement ⟨"", name⟩ :: tokens n stk1 cs2 else []
          | _, _ => []
  | n + 1, stk, '<' :: cs =>
      match nsname cs with
      | none => []
      | some (name, cs1) =>
          match attrs (cs1.length + 1) [] cs1 with
          | none => []
          | some (attr, empty, cs2) =>
              if empty then
                .StartElement ⟨"", name⟩ attr :: .EndElement ⟨"", name⟩ :: tokens n stk cs2
              else .StartElement ⟨"", name⟩ attr :: tokens n (name :: stk) cs2
  | n + 1, stk, c :: cs =>
      match text none [] (c :: cs) with
      | none => []
      | some (data, cs1) => .CharData data :: tokens n stk cs1

/-- The tokens of a document of the fragment. -/
def Tokens (s : String) : List Token := tokens (s.length + 1) [] s.data

end xml

namespace strconv

/-- The value of a run of decimal digits. -/
def digitsVal (cs : List Char) : Nat :=
  cs.foldl (fun n c => 10 * n + (c.toNat - '0'.toNat)) 0

/-- The number of times `n` can be halved before it drops below 2, in at most
the given number of steps. -/
def halvings : Nat → Nat → Nat
  | 0, _ => 0
  | f + 1, n => if n < 2 then 0 else halvings f (n / 2) + 1

/-- The binary logarithm of `n`, rounded down (0 for 0). -/
def log2 (n : Nat) : Nat := halvings n n

/-- The float64 nearest to `num / den` (both positive), ties to the even
fraction, with sign `neg`; `none` when the result overflows (Go returns the
range error `ErrRange`). -/
def round (neg : Bool) (num den : Nat) : Option Float64 :=
  let e0 : Int := (log2 num : Int) - (log2 den : Int)
  let e : Int := if den * 2 ^ e0.toNat ≤ num * 2 ^ (-e0).toNat then e0 else e0 - 1
  let ee : Int := max e (-1022)
  let q : Int := ee - 52
  let N := num * 2 ^ (-q).toNat
  let D := den * 2 ^ q.toNat
  let m := N / D
  let r := N % D
  let m1 := if D < 2 * r || (2 * r == D && m % 2 == 1) then m + 1 else m
  let biased : Int := if 2 ^ 53 ≤ m1 then ee + 1024 else if 2 ^ 52 ≤ m1 then ee + 1023 else 0
  let frac : Nat := if 2 ^ 53 ≤ m1 then 0 else if 2 ^ 52 ≤ m1 then m1 - 2 ^ 52 else m1
  if 2047 ≤ biased then none else some ⟨neg, biased.toNat, frac⟩

/-- The text after the sign is a decimal numeral: digits with an optional point
(at least one digit in all), then an optional exponent `e` or `E` with optional
sign and at least one digit. Returns the digits before the point, the digits
after it, the sign of the exponent and its digits. -/
def decimal (cs : List Char) : Option (List Char × List Char × Bool × List Char) :=
  let ip := cs.takeWhile Char.isDigit
  let r1 := cs.dropWhile Char.isDigit
  let (fp, r2) := match r1 with
    | '.' :: r => (r.takeWhile Char.isDigit, r.dropWhile Char.isDigit)
    | _ => ([], r1)
  if ip.isEmpty && fp.isEmpty then none
  else match r2 with
    | [] => some (ip, fp, false, [])
    | c :: r3 =>
        if c == 'e' || c == 'E' then
          let (eneg, r4) := match r3 with
            | '-' :: r => (true, r)
            | '+' :: r => (false, r)
            | _ => (false, r3)
          if r4.isEmpty || !r4.all Char.isDigit then none else some (ip, fp, eneg, r4)
        else none

/-- Go `strconv.ParseFloat(s, 64)` on the fragment: an optional sign followed by a
decimal numeral, by `inf` or `infinity`, or (unsigned) `nan`, letters in either
case. `none` is an error: a syntax error, or a range error on overflow.
Hexadecimal numerals and digit-separating underscores, which Go also accepts,
are outside the fragment. -/
def ParseFloat (s : String) : Option Float64 :=
  let cs := s.data
  let (signed, neg, body) := match cs with
    | '-' :: r => (true, true, r)
    | '+' :: r => (true, false, r)
    | _ => (false, false, cs)
  let low := body.map Char.toLower
  if low == "inf".data || low == "infinity".data then some ⟨neg, 2047, 0⟩
  else if (!signed) && low == "nan".data then some ⟨false, 2047, 2 ^ 51 + 1⟩
  else match decimal body with
    | none => none
    | some (ip, fp, eneg, ex) =>
        let M := digitsVal (ip ++ fp)
        let e10 : Int := (if eneg then -(digitsVal ex : Int) else (digitsVal ex : Int)) - fp.length
        if M = 0 then some ⟨neg, 0, 0⟩
        else round neg (M * 10 ^ e10.toNat) (10 ^ (-e10).toNat)

end strconv

/-- The library on the fragment described at `xml.tokens` and `strconv.ParseFloat`. -/
def goStd : Stdlib := ⟨xml.Tokens, strconv.ParseFloat⟩

/-! ## strings.ReplaceAll, net/http -/

/-- The scan of `strings.ReplaceAll` for a non-empty `old`: at every position not
inside an earlier match, an occurrence of `old` is replaced by `new` and the
scan resumes after it. The first argument counts the characters of the current
match still to be dropped. -/
def replaceScan (old new : List Char) : Nat → List Char → List Char
  | _, [] => []
  | skip + 1, _ :: rest => replaceScan old new skip rest
  | 0, c :: rest =>
      if old.isPrefixOf (c :: rest) then new ++ replaceScan old new (old.length - 1) rest
      else c :: replaceScan old new 0 rest

/-- Go `strings.ReplaceAll(s, old, new)` for a non-empty `old`: every
non-overlapping occurrence of `old`, from the left, becomes `new`. -/
def ReplaceAll (s old new : String) : String :=
  ⟨replaceScan old.data new.data 0 s.data⟩

/-- The outcome of `http.Get(url)` followed by `io.ReadAll(resp.Body)`.

* `refused err`: `http.Get` returned the error `err` before sending anything,
  because the URL does not parse (`url.Parse` rejects a control character, for
  instance) or the client rejects the request.
* `getError err`: the request was sent and `http.Get` returned the error `err`.
* `readError err`: the response arrived and `io.ReadAll` returned the error `err`.
* `body text`: the body was read in full. -/
inductive Response where
  | refused (err : String)
  | getError (err : String)
  | readError (err : String)
  | body (text : String)
deriving DecidableEq, Repr

/-- The library call `http.Get` followed by `io.ReadAll`, as the program sees it:
the outcome of a call, given the URLs `http.Get` was called with before in this
run (oldest first) and the URL of this call. -/
abbrev Network := List String → String → Response

/-- A network whose answer depends on the URL only. -/
def Network.fixed (f : String → Response) : Network := fun _ url => f url

/-- The page URL: `fmt.Sprintf("https://www.youtube.com/watch?v=%s", videoId)`. -/
def watchURL (videoId : String) : String := "https://www.youtube.com/watch?v=" ++ videoId

namespace transcribe

/-- The literal text the regular expression of line 87 starts with:
`"captions":\{"playerCaptionsTracklistRenderer":\{"captionTracks":\[{"baseUrl":"`
with its escapes removed (the unescaped `{` is a literal too). -/
def marker : String :=
  "\"captions\":\x7b\"playerCaptionsTracklistRenderer\":\x7b\"captionTracks\":[\x7b\"baseUrl\":\""

/-- The tail `(.*?)"` of the regular expression, tried at the head of the text:
the shortest run of characters other than newline (`.` does not match `\n`) that
is followed by a double quote. The second argument accumulates the run. -/
def lazyUntilQuote : List Char → List Char → Option (List Char)
  | [], _ => none
  | c :: rest, acc =>
      if c = '"' then some acc.reverse
      else if c = '\n' then none
      else lazyUntilQuote rest (c :: acc)

/-- A match of the whole regular expression starting at the head of the text: the
captured group. -/
def matchHere (cs : List Char) : Option (List Char) :=
  if marker.data.isPrefixOf cs then lazyUntilQuote (cs.drop marker.length) [] else none

/-- The leftmost match, scanning start positions from the left. -/
def findSubmatch : List Char → Option (List Char)
  | [] => none
  | c :: rest =>
      match matchHere (c :: rest) with
      | some m => some m
      | none => findSubmatch rest

/-- The call `re.FindStringSubmatch(fetchedSite)` of line 89 as far as the program
uses it: `none` when the result is nil (no match), `some m` with `m = match[1]`
when the expression matches (the result then has length 2). -/
def FindStringSubmatch (fetchedSite : String) : Option String :=
  (findSubmatch fetchedSite.data).map String.mk

/-- `fetchTranscript`, src/transcribe/api.go lines 70-111. `log` is the list of
URLs `http.Get` has been called with so far; the result carries the list
extended by the calls made here. Whether a call sent a request is told by its
outcome (`Response.refused`: nothing was sent). -/
def fetchTranscript (net : Network) (log : List String) (videoId : String) :
    Except String String × List String :=
  let log1 := log ++ [watchURL videoId]
  match net log (watchURL videoId) with
  | .refused err => (.error ("error fetching video: " ++ err), log1)
  | .getError err => (.error ("error fetching video: " ++ err), log1)
  | .readError err => (.error ("error reading response body: " ++ err), log1)
  | .body fetchedSite =>
      match FindStringSubmatch fetchedSite with
      | none => (.error "timedtext URL not found", log1)
      | some match1 =>
          let apiURL := ReplaceAll match1 "\\u0026" "&"
          let apiURL := ReplaceAll apiURL "\\\\" ""
          let log2 := log1 ++ [apiURL]
          match net log1 apiURL with
          | .refused err => (.error ("error fetching transcript: " ++ err), log2)
          | .getError err => (.error ("error fetching transcript: " ++ err), log2)
          | .readError err => (.error ("error reading transcript body: " ++ err), log2)
          | .body transcriptBody => (.ok transcriptBody, log2)

/-- The method `(*YouTubeTranscriptAPI).Get`, src/transcribe/api.go lines 38-68
(the receiver is an empty struct; the variadic `videoIds` is a list). The Go
map is a function from keys to optional values (`none`: no such key); the
second component is the list of URLs `http.Get` was called with, in order. -/
def Get (lib : Stdlib) (net : Network) (videoIds : List String) :
    (String → Option (List TranscriptEntry)) × List String :=
  videoIds.foldl
    (fun st videoId =>
      match fetchTranscript net st.2 videoId with
      | (.error _, log) => (st.1, log)
      | (.ok transcript, log) =>
          (Function.update st.1 videoId (some (parseTranscript lib transcript)), log))
    (fun _ => none, [])

end transcribe

namespace transcript

/-- The scan of the regular expression `timedtext` (a literal) from position `i`:
the bounds of the leftmost occurrence. -/
def findIndex (i : Nat) : List Char → Option (Nat × Nat)
  | [] => none
  | c :: rest =>
      if "timedtext".data.isPrefixOf (c :: rest) then some (i, i + "timedtext".length)
      else findIndex (i + 1) rest

/-- The call `regexp.MustCompile("timedtext").FindStringIndex(fetchedSite)` of
line 57: `none` for a nil result, `some (loc[0], loc[1])` for a match. Offsets
count characters. -/
def FindStringIndex (fetchedSite : String) : Option (Nat × Nat) :=
  findIndex 0 fetchedSite.data

/-- The slice expression `s[lo:hi]`. -/
def slice (s : String) (lo hi : Nat) : String := ⟨(s.data.drop lo).take (hi - lo)⟩

/-- `fetchTranscript`, src/transcript/api.go lines 42-78. The two
`ReplaceAllString` calls use the expressions `\\u0026` and `\\`, which match
the literal texts `\u0026` and `\`, with replacement texts that hold no `$`:
they are literal replacements. `log` lists the URLs `http.Get` has been called
with, as in the `transcribe` copy. -/
def fetchTranscript (net : Network) (log : List String) (videoId : String) :
    Except String String × List String :=
  let log1 := log ++ [watchURL videoId]
  match net log (watchURL videoId) with
  | .refused err => (.error ("error fetching video: " ++ err), log1)
  | .getError err => (.error ("error fetching video: " ++ err), log1)
  | .readError err => (.error ("error reading response body: " ++ err), log1)
  | .body fetchedSite =>
      match FindStringIndex fetchedSite with
      | none => (.error "timedtext URL not found", log1)
      | some timedTextURLStart =>
          let apiURL := "https://www.youtube.com/api/" ++
            slice fetchedSite timedTextURLStart.1 timedTextURLStart.2
          let apiURL := ReplaceAll apiURL "\\u0026" "&"
          let apiURL := ReplaceAll apiURL "\\" ""
          let log2 := log1 ++ [apiURL]
          match net log1 apiURL with
          | .refused err => (.error ("error fetching transcript: " ++ err), log2)
          | .getError err => (.error ("error fetching transcript: " ++ err), log2)
          | .readError err => (.error ("error reading transcript body: " ++ err), log2)
          | .body transcriptBody => (.ok transcriptBody, log2)

/-- The method `(*YouTubeTranscriptAPI).Get`, src/transcript/api.go lines 26-40. -/
def Get (lib : Stdlib) (net : Network) (videoIds : List String) :
    (String → Option (List TranscriptEntry)) × List String :=
  videoIds.foldl
    (fun st videoId =>
      match fetchTranscript net st.2 videoId with
      | (.error _, log) => (st.1, log)
      | (.ok transcript, log) =>
          (Function.update st.1 videoId (some (parseTranscript lib transcript)), log))
    (fun _ => none, [])

end transcript

/-! ## Notions of the specification, in its own words -/

namespace xml

/-- The character data an element holds itself, not inside a child element: the
`CharData` tokens at nesting depth 0 between the element's start (already read)
and its end element, joined in order. `none` when the tokens end before the
element does. -/
def ownCharData : Nat → List Token → Option String
  | _, [] => none
  | depth, .StartElement _ _ :: rest => ownCharData (depth + 1) rest
  | depth, .EndElement _ :: rest =>
      if depth = 0 then some "" else ownCharData (depth - 1) rest
  | depth, .CharData t :: rest =>
      if depth = 0 then (ownCharData 0 rest).map (fun u => t ++ u) else ownCharData depth rest
  | depth, _ :: rest => ownCharData depth rest

/-- The value of the attribute with local name `name`; of the last one when the
name occurs more than once. -/
def lastAttr (name : String) : List Attr → Option String
  | [] => none
  | a :: rest =>
      match lastAttr name rest with
      | some v => some v
      | none => if a.Name.Local = name then some a.Value else none

end xml

/-- The float64 an element's attribute `name` stands for: 0 when the element has
no such attribute, otherwise the attribute's value as `copyValue` converts it
(`none`: the conversion fails). -/
def attrValue (lib : Stdlib) (name : String) (attr : List xml.Attr) : Option Float64 :=
  match xml.lastAttr name attr with
  | none => some 0
  | some v => copyFloat lib v

/-- Lines 87-95 of src/transcribe/api.go on their own: the URL the caption
request goes to, `none` when the expression does not match the page. -/
def transcribe.captionURL (fetchedSite : String) : Option String :=
  (transcribe.FindStringSubmatch fetchedSite).map
    (fun match1 => ReplaceAll (ReplaceAll match1 "\\u0026" "&") "\\\\" "")

/-- Lines 57-64 of src/transcript/api.go on their own: the URL the caption
request goes to, `none` when the page does not contain `timedtext`. -/
def transcript.captionURL (fetchedSite : String) : Option String :=
  (transcript.FindStringIndex fetchedSite).map
    (fun loc =>
      ReplaceAll
        (ReplaceAll ("https://www.youtube.com/api/" ++ transcript.slice fetchedSite loc.1 loc.2)
          "\\u0026" "&")
        "\\" "")

/-- The shape the two copies of `fetchTranscript` share: they differ in how the
caption URL is taken from the page. -/
def fetchWith (captionURL : String → Option String) (net : Network) (log : List String)
    (videoId : String) : Except String String × List String :=
  let log1 := log ++ [watchURL videoId]
  match net log (watchURL videoId) with
  | .refused err => (.error ("error fetching video: " ++ err), log1)
  | .getError err => (.error ("error fetching video: " ++ err), log1)
  | .readError err => (.error ("error reading response body: " ++ err), log1)
  | .body fetchedSite =>
      match captionURL fetchedSite with
      | none => (.error "timedtext URL not found", log1)
      | some apiURL =>
          let log2 := log1 ++ [apiURL]
          match net log1 apiURL with
          | .refused err => (.error ("error fetching transcript: " ++ err), log2)
          | .getError err => (.error ("error fetching transcript: " ++ err), log2)
          | .readError err => (.error ("error reading transcript body: " ++ err), log2)
          | .body transcriptBody => (.ok transcriptBody, log2)

/-- The loop the two copies of `Get` share, started from any map and request
list. -/
def getWith {α : Type} (fetch : List String → String → Except String String × List String)
    (parse : String → α) (videoIds : List String)
    (init : (String → Option α) × List String) : (String → Option α) × List String :=
  videoIds.foldl
    (fun st videoId =>
      match fetch st.2 videoId with
      | (.error _, log) => (st.1, log)
      | (.ok transcript, log) => (Function.update st.1 videoId (some (parse transcript)), log))
    init

/-- The outbound requests one call of `http.Get` causes: none when the call is
refused, otherwise the request to the URL of the call followed by the requests
`http.Get` makes itself while it follows redirects. `redirects before url`
lists the URLs of those further requests (nothing when the answer is not a
redirect). -/
def sentBy (net : Network) (redirects : List String → String → List String)
    (before : List String) (url : String) : List String :=
  match net before url with
  | .refused _ => []
  | _ => url :: redirects before url

/-- The outbound requests caused by the calls `calls`, made in this order after
the calls `before`. -/
def sentRequests (net : Network) (redirects : List String → String → List String) :
    List String → List String → List String
  | _, [] => []
  | before, url :: rest =>
      sentBy net redirects before url ++ sentRequests net redirects (before ++ [url]) rest

/-- What one identifier causes, `before` being the calls made before it. Either
the page does not arrive or holds no caption URL: the only call is the page
call, and the requests are those of that call. Or the page arrives and a
caption URL is taken from it: the calls are the page call and one caption call,
and the requests are the page request, its redirects, and those of the caption
call. -/
def RequestsOf (captionURL : String → Option String) (net : Network)
    (redirects : List String → String → List String) (before : List String)
    (videoId : String) (calls sent : List String) : Prop :=
  (calls = ["https://www.youtube.com/watch?v=" ++ videoId] ∧
    (¬ ∃ page url, net before ("https://www.youtube.com/watch?v=" ++ videoId) = .body page ∧
      captionURL page = some url) ∧
    sent = sentBy net redirects before ("https://www.youtube.com/watch?v=" ++ videoId)) ∨
  (∃ page url, net before ("https://www.youtube.com/watch?v=" ++ videoId) = .body page ∧
    captionURL page = some url ∧
    calls = ["https://www.youtube.com/watch?v=" ++ videoId, url] ∧
    sent = ("https://www.youtube.com/watch?v=" ++ videoId) ::
      redirects before ("https://www.youtube.com/watch?v=" ++ videoId) ++
      sentBy net redirects (before ++ ["https://www.youtube.com/watch?v=" ++ videoId]) url)

/-- The calls of `http.Get` and the outbound requests are made of one segment per
identifier, in input order, each segment being what that identifier causes. -/
def SequentialTrace (captionURL : String → Option String) (net : Network)
    (redirects : List String → String → List String)
    (videoIds : List String) (calls sent : List String) : Prop :=
  ∃ (segs wires : List (List String)),
    calls = segs.flatten ∧ sent = wires.flatten ∧
    segs.length = videoIds.length ∧ wires.length = videoIds.length ∧
    ∀ i videoId seg wire, videoIds[i]? = some videoId → segs[i]? = some seg →
      wires[i]? = some wire →
      RequestsOf captionURL net redirects (segs.take i).flatten videoId seg wire

/-- The text converts to a non-negative float64, or does not convert at all (the
parser then returns nil). -/
def nonnegOrInvalid (lib : Stdlib) (v : String) : Bool :=
  match copyFloat lib v with
  | some x => Float64.le 0 x
  | none => true

/-- Every time the feed carries for the `transcribe` copy is non-negative: the
value of every `start` and `dur` attribute of every start element. -/
def transcribe.timesNonneg (lib : Stdlib) (tokens : List xml.Token) : Bool :=
  tokens.all (fun t =>
    match t with
    | .StartElement _ attr =>
        attr.all (fun a =>
          !(a.Name.Local == "start" || a.Name.Local == "dur") || nonnegOrInvalid lib a.Value)
    | _ => true)

/-- Every time the feed carries for the `transcript` copy is non-negative: the
character data of every element named `Start` or `Duration`. -/
def transcript.timesNonneg (lib : Stdlib) : List xml.Token → Bool
  | [] => true
  | .StartElement name _ :: rest =>
      (if name.Local = "Start" ∨ name.Local = "Duration" then
        match xml.ownCharData 0 rest with
        | some text => nonnegOrInvalid lib text
        | none => true
      else true) && transcript.timesNonneg lib rest
  | _ :: rest => transcript.timesNonneg lib rest

/-! ## Concrete inputs -/

/-- The caption feed of the specification's scenario (section 8). -/
def specFeed : String :=
  "<transcript><text start=\"0.0\" dur=\"1.5\">Hello</text><text start=\"1.5\" dur=\"2.0\">World</text></transcript>"

/-- A document that is one caption node. -/
def captionNode : String := "<text start=\"1.5\" dur=\"2.0\">Hello</text>"

/-- A document whose root element carries negative times. -/
def negativeNode : String := "<text start=\"-1\" dur=\"-2\">x</text>"

/-- A document whose root element holds the times as child elements, the way the
untagged struct of the `transcript` copy reads them. -/
def elementNode : String :=
  "<entry><Text>Hello</Text><Start>1.5</Start><Duration>2.0</Duration></entry>"

/-- A document whose child elements carry negative times. -/
def negativeElements : String := "<e><Start>-1</Start><Duration>-2</Duration></e>"

/-- The float64 1.5. -/
def f1_5 : Float64 := ⟨false, 1023, 2 ^ 51⟩

/-- The float64 2.0. -/
def f2_0 : Float64 := ⟨false, 1024, 0⟩

/-- The float64 -1.0. -/
def fNeg1 : Float64 := ⟨true, 1023, 0⟩

/-- The float64 -2.0. -/
def fNeg2 : Float64 := ⟨true, 1024, 0⟩

/-- A page without any caption marker. -/
def plainPage : String := "<html><body>Video unavailable</body></html>"

/-- A page that embeds the caption URL `url` the way the `transcribe` expression
expects it. -/
def markerPage (url : String) : String :=
  "<html>var ytInitialPlayerResponse = \x7b" ++ transcribe.marker ++ url ++ "\",\"name\":\"en\"\x7d]"

/-- A caption URL as the page holds it, with an escaped ampersand and escaped
slashes. -/
def escapedURL : String := "https:\\/\\/www.youtube.com\\/api\\/timedtext?v=abc123\\u0026lang=en"

/-- A caption URL without escapes. -/
def cleanURL : String := "https://www.youtube.com/api/timedtext?v=abc123"

/-- A caption feed cut off in the middle of a tag. -/
def brokenFeed : String := "<transcript><text start=\"0.0\" dur="

/-- A feed that is not well-formed XML only after the end of its root element. -/
def trailingFeed : String := "<transcript></transcript><text"

/-- The answers of the specification's scenario, with a feed chosen per use: the
page of `abc123` embeds `cleanURL`, the page of `noCaptions999` has no marker,
both caption URLs the two copies derive answer with `feed`, anything else
cannot be reached. -/
def scenarioAnswers (feed : String) : String → Response := fun url =>
  if url = watchURL "abc123" then .body (markerPage cleanURL)
  else if url = watchURL "noCaptions999" then .body plainPage
  else if url = cleanURL then .body feed
  else if url = "https://www.youtube.com/api/timedtext" then .body feed
  else .getError "no such host"

/-- The network of the specification's scenario. -/
def scenarioNet (feed : String) : Network := Network.fixed (scenarioAnswers feed)

/-- Go `stringContainsCTLByte` of net/url: the text holds a byte below 0x20 or the
byte 0x7f. `url.Parse` rejects such a URL. -/
def stringContainsCTLByte (s : String) : Bool :=
  s.data.any (fun c => c.toNat < 0x20 || c.toNat == 0x7f)

/-- An identifier with a control character (a line feed). -/
def controlId : String := "abc\n123"

/-- A network that, like `http.Get`, refuses a URL with a control character
before sending anything (the text is the error `url.Parse` wraps), and serves
the scenario otherwise. -/
def strictNet (feed : String) : Network :=
  Network.fixed (fun url =>
    if stringContainsCTLByte url then .refused "net/url: invalid control character in URL"
    else scenarioAnswers feed url)

/-- No answer is a redirect. -/
def noRedirects : List String → String → List String := fun _ _ => []

/-- The page of `abc123` is answered with a redirect to a consent page, which
`http.Get` follows. -/
def consentRedirect : List String → String → List String := fun _ url =>
  if url = watchURL "abc123" then ["https://consent.youtube.com/m"] else []

/-! # Theorems -/

set_option maxRecDepth 100000

/-! ## encoding/xml: the decoding loops -/

namespace xml

theorem skipLoop_length : ∀ (ts : List Token) (k : Nat) (r : List Token),
    skipLoop k ts = some r → r.length < ts.length := by
  intro ts
  induction ts with
  | nil => intro k r h; simp [skipLoop] at h
  | cons t rest ih =>
    intro k r h
    cases t with
    | StartElement n a =>
      simp only [skipLoop] at h
      have := ih _ _ h
      simp; omega
    | EndElement n =>
      simp only [skipLoop] at h
      split at h
      · simp at h; subst h; simp
      · have := ih _ _ h
        simp; omega
    | CharData d => simp only [skipLoop] at h; have := ih _ _ h; simp; omega
    | Comment d => simp only [skipLoop] at h; have := ih _ _ h; simp; omega
    | ProcInst a b => simp only [skipLoop] at h; have := ih _ _ h; simp; omega
    | Directive d => simp only [skipLoop] at h; have := ih _ _ h; simp; omega

theorem ownCharData_succ : ∀ (ts : List Token) (k : Nat),
    ownCharData (k + 1) ts = (skipLoop k ts).bind (ownCharData 0) := by
  intro ts
  induction ts with
  | nil => intro k; simp [ownCharData, skipLoop]
  | cons t rest ih =>
    intro k
    cases t with
    | StartElement n a => simp only [ownCharData, skipLoop]; exact ih (k + 1)
    | EndElement n =>
      simp only [ownCharData, skipLoop]
      cases k with
      | zero => simp
      | succ j => simp; exact ih j
    | CharData d => simp only [ownCharData, skipLoop]; simp; exact ih k
    | Comment d => simp only [ownCharData, skipLoop]; exact ih k
    | ProcInst a b => simp only [ownCharData, skipLoop]; exact ih k
    | Directive d => simp only [ownCharData, skipLoop]; exact ih k

theorem readCharData_text : ∀ (n : Nat) (data : String) (ts : List Token),
    ts.length < n →
    (readCharData n data ts).map Prod.fst = (ownCharData 0 ts).map (fun u => data ++ u) := by
  intro n
  induction n with
  | zero => intro data ts h; omega
  | succ n ih =>
    intro data ts h
    cases ts with
    | nil => simp [readCharData, ownCharData]
    | cons t rest =>
      simp only [List.length_cons] at h
      cases t with
      | StartElement nm a =>
        simp only [readCharData, ownCharData, Skip]
        rw [ownCharData_succ]
        cases hs : skipLoop 0 rest with
        | none => simp
        | some r1 =>
          have := skipLoop_length _ _ _ hs
          simp only [Option.some_bind]
          exact ih data r1 (by omega)
      | EndElement nm => simp [readCharData, ownCharData]
      | CharData d =>
        simp only [readCharData, ownCharData]
        rw [ih (data ++ d) rest (by omega)]
        simp [Option.map_map, Function.comp_def, String.append_assoc]
      | Comment d => simp only [readCharData, ownCharData]; exact ih data rest (by omega)
      | ProcInst a b => simp only [readCharData, ownCharData]; exact ih data rest (by omega)
      | Directive d => simp only [readCharData, ownCharData]; exact ih data rest (by omega)

theorem readCharData_length : ∀ (n : Nat) (data : String) (ts : List Token) (x : String)
    (r : List Token), readCharData n data ts = some (x, r) → r.length < ts.length := by
  intro n
  induction n with
  | zero => intro data ts x r h; simp [readCharData] at h
  | succ n ih =>
    intro data ts x r h
    cases ts with
    | nil => simp [readCharData] at h
    | cons t rest =>
      cases t with
      | StartElement nm a =>
        simp only [readCharData, Skip] at h
        cases hs : skipLoop 0 rest with
        | none => simp [hs] at h
        | some r1 =>
          simp only [hs] at h
          have h1 := skipLoop_length _ _ _ hs
          have h2 := ih _ _ _ _ h
          simp; omega
      | EndElement nm =>
        simp only [readCharData, Option.some.injEq, Prod.mk.injEq] at h
        rw [← h.2]; simp
      | CharData d => simp only [readCharData] at h; have := ih _ _ _ _ h; simp; omega
      | Comment d => simp only [readCharData] at h; have := ih _ _ _ _ h; simp; omega
      | ProcInst a b => simp only [readCharData] at h; have := ih _ _ _ _ h; simp; omega
      | Directive d => simp only [readCharData] at h; have := ih _ _ _ _ h; simp; omega

/-- The bound on the rounds of `readCharData` is never reached when it exceeds
the number of tokens: any two such bounds give the same result. -/
theorem readCharData_fuel : ∀ (n m : Nat) (data : String) (ts : List Token),
    ts.length < n → ts.length < m → readCharData n data ts = readCharData m data ts := by
  intro n
  induction n with
  | zero => intro m data ts h; omega
  | succ n ih =>
    intro m data ts hn hm
    cases m with
    | zero => omega
    | succ m =>
      cases ts with
      | nil => simp [readCharData]
      | cons t rest =>
        simp only [List.length_cons] at hn hm
        cases t with
        | StartElement nm a =>
          simp only [readCharData, Skip]
          cases hs : skipLoop 0 rest with
          | none => rfl
          | some r1 =>
            have h1 := skipLoop_length _ _ _ hs
            exact ih m data r1 (by omega) (by omega)
        | EndElement nm => simp [readCharData]
        | CharData d => simp only [readCharData]; exact ih m _ rest (by omega) (by omega)
        | Comment d => simp only [readCharData]; exact ih m _ rest (by omega) (by omega)
        | ProcInst a b => simp only [readCharData]; exact ih m _ rest (by omega) (by omega)
        | Directive d => simp only [readCharData]; exact ih m _ rest (by omega) (by omega)

end xml

namespace transcript

/-- The bound on the rounds of `readStruct` is never reached when it exceeds the
number of tokens. -/
theorem readStruct_fuel (lib : Stdlib) : ∀ (n m : Nat) (e : TranscriptEntry)
    (ts : List xml.Token),
    ts.length < n → ts.length < m → readStruct lib n e ts = readStruct lib m e ts := by
  intro n
  induction n with
  | zero => intro m e ts h; omega
  | succ n ih =>
    intro m e ts hn hm
    cases m with
    | zero => omega
    | succ m =>
      cases ts with
      | nil => simp [readStruct]
      | cons t rest =>
        simp only [List.length_cons] at hn hm
        cases t with
        | StartElement nm a =>
          simp only [readStruct]
          have field : ∀ (k : String → Option TranscriptEntry),
              (match xml.readCharData (rest.length + 1) "" rest with
               | none => none
               | some (data, rest1) =>
                   match k data with
                   | none => none
                   | some e1 => readStruct lib n e1 rest1) =
              (match xml.readCharData (rest.length + 1) "" rest with
               | none => none
               | some (data, rest1) =>
                   match k data with
                   | none => none
                   | some e1 => readStruct lib m e1 rest1) := by
            intro k
            cases hr : xml.readCharData (rest.length + 1) "" rest with
            | none => rfl
            | some q =>
              obtain ⟨data, rest1⟩ := q
              have h1 := xml.readCharData_length _ _ _ _ _ hr
              simp only
              cases k data with
              | none => rfl
              | some e1 => exact ih m e1 rest1 (by omega) (by omega)
          split
          · have := field (fun data => some { e with Text := data })
            simpa using this
          · split
            · have := field (fun data => (copyFloat lib data).map (fun x => { e with Start := x }))
              cases hr : xml.readCharData (rest.length + 1) "" rest with
              | none => rfl
              | some q =>
                obtain ⟨data, rest1⟩ := q
                simp only [hr] at this ⊢
                cases hc : copyFloat lib data with
                | none => rfl
                | some x => simpa [hc] using this
            · split
              · have := field (fun data =>
                  (copyFloat lib data).map (fun x => { e with Duration := x }))
                cases hr : xml.readCharData (rest.length + 1) "" rest with
                | none => rfl
                | some q =>
                  obtain ⟨data, rest1⟩ := q
                  simp only [hr] at this ⊢
                  cases hc : copyFloat lib data with
                  | none => rfl
                  | some x => simpa [hc] using this
              · cases hs : xml.Skip rest with
                | none => rfl
                | some r1 =>
                  have h1 := xml.skipLoop_length _ _ _ hs
                  exact ih m e r1 (by omega) (by omega)
        | EndElement nm => simp [readStruct]
        | CharData d => simp only [readStruct]; exact ih m _ rest (by omega) (by omega)
        | Comment d => simp only [readStruct]; exact ih m _ rest (by omega) (by omega)
        | ProcInst a b => simp only [readStruct]; exact ih m _ rest (by omega) (by omega)
        | Directive d => simp only [readStruct]; exact ih m _ rest (by omega) (by omega)

end transcript

namespace xml

theorem lastAttr_mem (name : String) : ∀ (attr : List Attr) (v : String),
    lastAttr name attr = some v → ∃ a ∈ attr, a.Name.Local = name ∧ a.Value = v := by
  intro attr
  induction attr with
  | nil => intro v h; simp [lastAttr] at h
  | cons a rest ih =>
    intro v h
    simp only [lastAttr] at h
    cases hl : lastAttr name rest with
    | some w =>
      simp [hl] at h
      obtain ⟨b, hb, hn, hv⟩ := ih w hl
      exact ⟨b, List.mem_cons_of_mem _ hb, hn, by rw [hv, h]⟩
    | none =>
      simp [hl] at h
      exact ⟨a, List.mem_cons_self _ _, h.1, h.2⟩

end xml

namespace transcribe

theorem assignAttrs_spec (lib : Stdlib) : ∀ (attr : List xml.Attr) (e r : TranscriptEntry),
    assignAttrs lib e attr = some r →
    r.Text = e.Text ∧
    (match xml.lastAttr "start" attr with
     | none => r.Start = e.Start
     | some v => copyFloat lib v = some r.Start) ∧
    (match xml.lastAttr "dur" attr with
     | none => r.Duration = e.Duration
     | some v => copyFloat lib v = some r.Duration) := by
  intro attr
  induction attr with
  | nil => intro e r h; simp [assignAttrs] at h; subst h; simp [xml.lastAttr]
  | cons a rest ih =>
    intro e r h
    simp only [assignAttrs] at h
    split at h
    · exact absurd h (by simp)
    · rename_i e1 h1
      split at h
      · exact absurd h (by simp)
      · rename_i e2 h2
        obtain ⟨ht, hs, hd⟩ := ih e2 r h
        have h1' : e1.Text = e.Text ∧ e1.Duration = e.Duration ∧
            (if a.Name.Local = "start" then copyFloat lib a.Value = some e1.Start
             else e1.Start = e.Start) := by
          split at h1
          · rename_i hn
            cases hc : copyFloat lib a.Value with
            | none => simp [hc] at h1
            | some x => simp [hc] at h1; subst h1; simp [hn]
          · rename_i hn
            simp at h1; subst h1; simp [hn]
        have h2' : e2.Text = e1.Text ∧ e2.Start = e1.Start ∧
            (if a.Name.Local = "dur" then copyFloat lib a.Value = some e2.Duration
             else e2.Duration = e1.Duration) := by
          split at h2
          · rename_i hn
            cases hc : copyFloat lib a.Value with
            | none => simp [hc] at h2
            | some x => simp [hc] at h2; subst h2; simp [hn]
          · rename_i hn
            simp at h2; subst h2; simp [hn]
        refine ⟨by rw [ht, h2'.1, h1'.1], ?_, ?_⟩
        · simp only [xml.lastAttr]
          cases hl : xml.lastAttr "start" rest with
          | some v => simp [hl] at hs ⊢; exact hs
          | none =>
            simp [hl] at hs ⊢
            by_cases hn : a.Name.Local = "start"
            · simp [hn] at h1' ⊢; rw [hs, h2'.2.1]; exact h1'.2.2
            · simp [hn] at h1' ⊢; rw [hs, h2'.2.1]; exact h1'.2.2
        · simp only [xml.lastAttr]
          cases hl : xml.lastAttr "dur" rest with
          | some v => simp [hl] at hd ⊢; exact hd
          | none =>
            simp [hl] at hd ⊢
            by_cases hn : a.Name.Local = "dur"
            · simp [hn] at h2' ⊢; rw [hd]; exact h2'.2.2
            · simp [hn] at h2' ⊢; rw [hd, h2'.2.2]; exact h1'.2.1

theorem parse_root (lib : Stdlib) (PlainData : String) :
    TranscriptParser.parse lib ⟨PlainData⟩ = [] ∨
      ∃ name attr body text start dur,
        xml.findStart (lib.Token PlainData) = some (name, attr, body) ∧
        xml.ownCharData 0 body = some text ∧
        attrValue lib "start" attr = some start ∧
        attrValue lib "dur" attr = some dur ∧
        TranscriptParser.parse lib ⟨PlainData⟩ = [⟨text, start, dur⟩] := by
  unfold TranscriptParser.parse Unmarshal
  cases hf : xml.findStart (lib.Token PlainData) with
  | none => left; rfl
  | some p =>
    obtain ⟨name, attr, body⟩ := p
    simp only
    unfold unmarshalEntry
    cases ha : assignAttrs lib ⟨"", 0, 0⟩ attr with
    | none => left; rfl
    | some e =>
      simp only
      cases hr : xml.readCharData (body.length + 1) "" body with
      | none => left; rfl
      | some q =>
        obtain ⟨data, rest⟩ := q
        right
        have ht := xml.readCharData_text (body.length + 1) "" body (by omega)
        rw [hr] at ht
        obtain ⟨_, hs, hd⟩ := assignAttrs_spec lib attr _ e ha
        refine ⟨name, attr, body, data, e.Start, e.Duration, rfl, ?_, ?_, ?_, rfl⟩
        · cases ho : xml.ownCharData 0 body with
          | none => simp [ho] at ht
          | some u => simp [ho] at ht; simp [ht]
        · unfold attrValue
          cases hl : xml.lastAttr "start" attr with
          | none => simp [hl] at hs ⊢; rw [hs]
          | some v => simp [hl] at hs ⊢; exact hs
        · unfold attrValue
          cases hl : xml.lastAttr "dur" attr with
          | none => simp [hl] at hd ⊢; rw [hd]
          | some v => simp [hl] at hd ⊢; exact hd

theorem assignAttrs_none_iff (lib : Stdlib) : ∀ (attr : List xml.Attr) (e : TranscriptEntry),
    assignAttrs lib e attr = none ↔
      ∃ a ∈ attr, (a.Name.Local = "start" ∨ a.Name.Local = "dur") ∧
        copyFloat lib a.Value = none := by
  intro attr
  induction attr with
  | nil => intro e; simp [assignAttrs]
  | cons a rest ih =>
    intro e
    simp only [assignAttrs, List.mem_cons, exists_eq_or_imp]
    by_cases hs : a.Name.Local = "start"
    · have hd : ¬ a.Name.Local = "dur" := by rw [hs]; decide
      simp only [hs, hd, if_true, if_false, true_or, true_and]
      cases hc : copyFloat lib a.Value with
      | none => simp
      | some x => simp [ih]
    · by_cases hd : a.Name.Local = "dur"
      · simp only [hs, hd, if_true, if_false, or_true, true_and]
        cases hc : copyFloat lib a.Value with
        | none => simp
        | some x => simp [ih]
      · simp [hs, hd, ih]

theorem parse_nil_iff (lib : Stdlib) (PlainData : String) :
    TranscriptParser.parse lib ⟨PlainData⟩ = [] ↔
      ∀ name attr body, xml.findStart (lib.Token PlainData) = some (name, attr, body) →
        (∃ a ∈ attr, (a.Name.Local = "start" ∨ a.Name.Local = "dur") ∧
          copyFloat lib a.Value = none) ∨
        xml.ownCharData 0 body = none := by
  unfold TranscriptParser.parse Unmarshal
  cases hf : xml.findStart (lib.Token PlainData) with
  | none => simp
  | some p =>
    obtain ⟨name, attr, body⟩ := p
    have ht := xml.readCharData_text (body.length + 1) "" body (by omega)
    have hall : (∀ name1 attr1 body1, some (name, attr, body) = some (name1, attr1, body1) →
        (∃ a ∈ attr1, (a.Name.Local = "start" ∨ a.Name.Local = "dur") ∧
          copyFloat lib a.Value = none) ∨ xml.ownCharData 0 body1 = none) ↔
        (assignAttrs lib ⟨"", 0, 0⟩ attr = none ∨ xml.ownCharData 0 body = none) := by
      rw [assignAttrs_none_iff lib attr ⟨"", 0, 0⟩]
      constructor
      · intro h; exact h name attr body rfl
      · intro h name1 attr1 body1 heq
        simp only [Option.some.injEq, Prod.mk.injEq] at heq
        obtain ⟨_, h2, h3⟩ := heq
        subst h2; subst h3
        exact h
    rw [hall]
    unfold unmarshalEntry
    cases ha : assignAttrs lib ⟨"", 0, 0⟩ attr with
    | none => simp [ha]
    | some e =>
      cases hr : xml.readCharData (body.length + 1) "" body with
      | none =>
        rw [hr] at ht
        cases ho : xml.ownCharData 0 body with
        | none => simp [ha, hr]
        | some u => simp [ho] at ht
      | some q =>
        rw [hr] at ht
        cases ho : xml.ownCharData 0 body with
        | none => simp [ho] at ht
        | some u => simp [ha, hr]

end transcribe

namespace transcript

theorem parse_single (lib : Stdlib) (PlainData : String) :
    TranscriptParser.parse lib ⟨PlainData⟩ = [] ∨
      ∃ e, TranscriptParser.parse lib ⟨PlainData⟩ = [e] := by
  unfold TranscriptParser.parse Unmarshal
  cases xml.findStart (lib.Token PlainData) with
  | none => left; rfl
  | some p =>
    obtain ⟨name, attr, body⟩ := p
    simp only
    cases unmarshalEntry lib attr body with
    | none => left; rfl
    | some e => right; exact ⟨e, rfl⟩

end transcript

/-! ## The caption marker in the page text -/

namespace transcribe

theorem lazyUntilQuote_sound : ∀ (cs acc m : List Char),
    lazyUntilQuote cs acc = some m →
    ∃ run post, cs = run ++ '"' :: post ∧ m = acc.reverse ++ run ∧ '\n' ∉ run := by
  intro cs
  induction cs with
  | nil => intro acc m h; simp [lazyUntilQuote] at h
  | cons c rest ih =>
    intro acc m h
    simp only [lazyUntilQuote] at h
    split at h
    · rename_i hq
      simp only [Option.some.injEq] at h
      exact ⟨[], rest, by simp [hq], by simp [h], by simp⟩
    · split at h
      · exact absurd h (by simp)
      · rename_i hq hn
        obtain ⟨run, post, h1, h2, h3⟩ := ih _ _ h
        refine ⟨c :: run, post, by simp [h1], by simp [h2], ?_⟩
        simp only [List.mem_cons, not_or]
        exact ⟨fun hc => hn hc.symm, h3⟩

theorem matchHere_sound (cs m : List Char) (h : matchHere cs = some m) :
    ∃ post, cs = marker.data ++ m ++ '"' :: post ∧ '\n' ∉ m := by
  unfold matchHere at h
  split at h
  · rename_i hp
    rw [List.isPrefixOf_iff_prefix] at hp
    obtain ⟨t, ht⟩ := hp
    have hd : cs.drop marker.length = t := by
      rw [← ht]
      exact List.drop_left _ _
    rw [hd] at h
    obtain ⟨run, post, h1, h2, h3⟩ := lazyUntilQuote_sound _ _ _ h
    simp only [List.reverse_nil, List.nil_append] at h2
    subst h2
    exact ⟨post, by rw [← ht, h1]; simp, h3⟩
  · exact absurd h (by simp)

/-- A match found by the scan is a match of the expression: the marker, then the
captured run without newline, then a double quote. -/
theorem findSubmatch_sound : ∀ (cs m : List Char), findSubmatch cs = some m →
    ∃ pre post, cs = pre ++ marker.data ++ m ++ '"' :: post ∧ '\n' ∉ m := by
  intro cs
  induction cs with
  | nil => intro m h; simp [findSubmatch] at h
  | cons c rest ih =>
    intro m h
    simp only [findSubmatch] at h
    split at h
    · rename_i m1 hm
      simp only [Option.some.injEq] at h
      subst h
      obtain ⟨post, h1, h2⟩ := matchHere_sound _ _ hm
      exact ⟨[], post, by simpa using h1, h2⟩
    · obtain ⟨pre, post, h1, h2⟩ := ih m h
      exact ⟨c :: pre, post, by simp [h1], h2⟩

end transcribe

namespace transcript

theorem findIndex_none : ∀ (cs : List Char) (i : Nat), findIndex i cs = none →
    ¬ "timedtext".data <:+: cs := by
  intro cs
  induction cs with
  | nil => intro i _ h; have := List.eq_nil_of_infix_nil h; simp at this
  | cons c rest ih =>
    intro i h
    simp only [findIndex] at h
    split at h
    · exact absurd h (by simp)
    · rename_i hp
      rw [List.infix_cons_iff]
      rintro (hpre | hin)
      · exact hp (List.isPrefixOf_iff_prefix.mpr hpre)
      · exact ih _ h hin

theorem findIndex_some : ∀ (cs : List Char) (i lo hi : Nat), findIndex i cs = some (lo, hi) →
    ∃ pre post, cs = pre ++ "timedtext".data ++ post ∧ lo = i + pre.length ∧
      hi = lo + "timedtext".length := by
  intro cs
  induction cs with
  | nil => intro i lo hi h; simp [findIndex] at h
  | cons c rest ih =>
    intro i lo hi h
    simp only [findIndex] at h
    split at h
    · rename_i hp
      rw [List.isPrefixOf_iff_prefix] at hp
      obtain ⟨t, ht⟩ := hp
      simp only [Option.some.injEq, Prod.mk.injEq] at h
      exact ⟨[], t, by simpa using ht.symm, by simp [h.1], by rw [← h.2, ← h.1]⟩
    · obtain ⟨pre, post, h1, h2, h3⟩ := ih _ _ _ h
      exact ⟨c :: pre, post, by simp [h1], by simp [h2]; omega, h3⟩

/-- On a page that contains `timedtext` the expression matches, the bounds are in
range, and the slice between them is the text `timedtext` itself. -/
theorem FindStringIndex_of_infix (page : String) (h : "timedtext".data <:+: page.data) :
    ∃ lo hi, FindStringIndex page = some (lo, hi) ∧ lo ≤ hi ∧ hi ≤ page.length ∧
      slice page lo hi = "timedtext" := by
  unfold FindStringIndex
  cases hf : findIndex 0 page.data with
  | none => exact absurd h (findIndex_none _ _ hf)
  | some loc =>
    obtain ⟨lo, hi⟩ := loc
    obtain ⟨pre, post, h1, h2, h3⟩ := findIndex_some _ _ _ _ hf
    refine ⟨lo, hi, rfl, by omega, ?_, ?_⟩
    · have : page.length = page.data.length := rfl
      rw [this, h1, h3, h2]
      simp [String.length]
    · unfold slice
      have hlo : lo = pre.length := by omega
      have hlen : hi - lo = "timedtext".data.length := by rw [h3]; simp [String.length]
      rw [h1, hlo] at *
      rw [hlen, List.append_assoc, List.drop_left, List.take_left]

theorem captionURL_of_infix (page : String) (h : "timedtext".data <:+: page.data) :
    captionURL page = some "https://www.youtube.com/api/timedtext" := by
  obtain ⟨lo, hi, h1, _, _, h4⟩ := FindStringIndex_of_infix page h
  unfold captionURL
  rw [h1]
  simp only [Option.map_some', h4]
  decide

theorem captionURL_of_not_infix (page : String) (h : ¬ "timedtext".data <:+: page.data) :
    FindStringIndex page = none := by
  unfold FindStringIndex
  cases hf : findIndex 0 page.data with
  | none => rfl
  | some loc =>
    obtain ⟨lo, hi⟩ := loc
    obtain ⟨pre, post, h1, _, _⟩ := findIndex_some _ _ _ _ hf
    exact absurd ⟨pre, post, h1.symm⟩ h

end transcript

theorem transcribe_captionURL_none (page : String)
    (h : ¬ ∃ pre frag post, page.data = pre ++ transcribe.marker.data ++ frag ++ '"' :: post ∧
      '\n' ∉ frag) : transcribe.captionURL page = none := by
  unfold transcribe.captionURL transcribe.FindStringSubmatch
  cases hf : transcribe.findSubmatch page.data with
  | none => rfl
  | some m =>
    obtain ⟨pre, post, h1, h2⟩ := transcribe.findSubmatch_sound _ _ hf
    exact absurd ⟨pre, m, post, h1, h2⟩ h

theorem transcript_captionURL_none (page : String) (h : ¬ "timedtext".data <:+: page.data) :
    transcript.captionURL page = none := by
  unfold transcript.captionURL
  rw [transcript.captionURL_of_not_infix page h]
  rfl

/-! ## The loop of Get -/

theorem transcribe_fetchTranscript_eq (net : Network) (log : List String) (videoId : String) :
    transcribe.fetchTranscript net log videoId =
      fetchWith transcribe.captionURL net log videoId := by
  unfold transcribe.fetchTranscript fetchWith transcribe.captionURL
  cases net log (watchURL videoId) with
  | refused err => rfl
  | getError err => rfl
  | readError err => rfl
  | body page =>
    simp only
    cases transcribe.FindStringSubmatch page with
    | none => rfl
    | some m => rfl

theorem transcript_fetchTranscript_eq (net : Network) (log : List String) (videoId : String) :
    transcript.fetchTranscript net log videoId =
      fetchWith transcript.captionURL net log videoId := by
  unfold transcript.fetchTranscript fetchWith transcript.captionURL
  cases net log (watchURL videoId) with
  | refused err => rfl
  | getError err => rfl
  | readError err => rfl
  | body page =>
    simp only
    cases transcript.FindStringIndex page with
    | none => rfl
    | some m => rfl

theorem transcribe_Get_eq (lib : Stdlib) (net : Network) (videoIds : List String) :
    transcribe.Get lib net videoIds =
      getWith (fetchWith transcribe.captionURL net) (transcribe.parseTranscript lib) videoIds
        (fun _ => none, []) := by
  unfold transcribe.Get getWith
  congr 1
  funext st videoId
  rw [transcribe_fetchTranscript_eq]

theorem transcript_Get_eq (lib : Stdlib) (net : Network) (videoIds : List String) :
    transcript.Get lib net videoIds =
      getWith (fetchWith transcript.captionURL net) (transcript.parseTranscript lib) videoIds
        (fun _ => none, []) := by
  unfold transcript.Get getWith
  congr 1
  funext st videoId
  rw [transcript_fetchTranscript_eq]

theorem getWith_cons {α : Type}
    (fetch : List String → String → Except String String × List String)
    (parse : String → α) (v : String) (rest : List String)
    (init : (String → Option α) × List String) :
    getWith fetch parse (v :: rest) init =
      getWith fetch parse rest
        (match fetch init.2 v with
         | (.error _, log) => (init.1, log)
         | (.ok transcript, log) =>
             (Function.update init.1 v (some (parse transcript)), log)) := by
  simp [getWith, List.foldl_cons]

/-- The map `Get` returns when the outcome of a fetch does not depend on the
requests made before it. -/
theorem getWith_map {α : Type}
    (fetch : List String → String → Except String String × List String)
    (parse : String → α)
    (hfix : ∀ log log1 videoId, (fetch log videoId).1 = (fetch log1 videoId).1)
    (videoId : String) : ∀ (videoIds : List String) (init : (String → Option α) × List String),
    (getWith fetch parse videoIds init).1 videoId =
      if videoId ∈ videoIds then
        match (fetch [] videoId).1 with
        | .ok feed => some (parse feed)
        | .error _ => init.1 videoId
      else init.1 videoId := by
  intro videoIds
  induction videoIds with
  | nil => intro init; simp [getWith]
  | cons v rest ih =>
    intro init
    rw [getWith_cons, ih]
    have hv := hfix init.2 [] v
    rcases hfv : fetch init.2 v with ⟨r, log⟩
    rw [hfv] at hv
    simp only at hv
    by_cases hin : videoId ∈ rest
    · simp only [hin, List.mem_cons, or_true, if_true]
      cases hr : (fetch [] videoId).1 with
      | ok feed => rfl
      | error err =>
        simp only
        cases r with
        | error e => rfl
        | ok t =>
          simp only
          by_cases he : videoId = v
          · subst he; rw [← hv] at hr; cases hr
          · simp [Function.update, he]
    · simp only [hin, if_false, List.mem_cons, or_false]
      by_cases he : videoId = v
      · subst he
        simp only [if_true]
        rw [← hv]
        cases r with
        | error e => rfl
        | ok t => simp [Function.update]
      · simp only [he, if_false]
        cases r with
        | error e => rfl
        | ok t => simp [Function.update, he]

theorem fetchWith_fixed (captionURL : String → Option String) (f : String → Response)
    (log log1 : List String) (videoId : String) :
    (fetchWith captionURL (Network.fixed f) log videoId).1 =
      (fetchWith captionURL (Network.fixed f) log1 videoId).1 := by
  unfold fetchWith Network.fixed
  cases f (watchURL videoId) with
  | refused err => rfl
  | getError err => rfl
  | readError err => rfl
  | body page =>
    simp only
    cases captionURL page with
    | none => rfl
    | some url =>
      simp only
      cases f url with
      | refused err => rfl
      | getError err => rfl
      | readError err => rfl
      | body t => rfl

theorem transcribe_Get_map (lib : Stdlib) (f : String → Response) (videoIds : List String)
    (videoId : String) :
    (transcribe.Get lib (Network.fixed f) videoIds).1 videoId =
      if videoId ∈ videoIds then
        match (transcribe.fetchTranscript (Network.fixed f) [] videoId).1 with
        | .ok feed => some (transcribe.parseTranscript lib feed)
        | .error _ => none
      else none := by
  rw [transcribe_Get_eq, transcribe_fetchTranscript_eq]
  exact getWith_map _ _ (fun log log1 v => fetchWith_fixed _ f log log1 v) videoId videoIds _

theorem transcript_Get_map (lib : Stdlib) (f : String → Response) (videoIds : List String)
    (videoId : String) :
    (transcript.Get lib (Network.fixed f) videoIds).1 videoId =
      if videoId ∈ videoIds then
        match (transcript.fetchTranscript (Network.fixed f) [] videoId).1 with
        | .ok feed => some (transcript.parseTranscript lib feed)
        | .error _ => none
      else none := by
  rw [transcript_Get_eq, transcript_fetchTranscript_eq]
  exact getWith_map _ _ (fun log log1 v => fetchWith_fixed _ f log log1 v) videoId videoIds _

theorem fetchWith_not_found (captionURL : String → Option String) (net : Network)
    (log : List String) (videoId page : String)
    (hpage : net log (watchURL videoId) = .body page) (hnone : captionURL page = none) :
    fetchWith captionURL net log videoId =
      (.error "timedtext URL not found", log ++ [watchURL videoId]) := by
  unfold fetchWith
  simp only [hpage, hnone]

theorem getWith_absent {α : Type}
    (fetch : List String → String → Except String String × List String)
    (parse : String → α) (videoId : String)
    (hfail : ∀ log, ∃ err log1, fetch log videoId = (.error err, log1)) :
    ∀ (videoIds : List String) (init : (String → Option α) × List String),
    (getWith fetch parse videoIds init).1 videoId = init.1 videoId := by
  intro videoIds
  induction videoIds with
  | nil => intro init; simp [getWith]
  | cons v rest ih =>
    intro init
    rw [getWith_cons, ih]
    rcases hfv : fetch init.2 v with ⟨r, log⟩
    cases r with
    | error e => rfl
    | ok t =>
      simp only
      by_cases he : videoId = v
      · subst he
        obtain ⟨err, log1, hf⟩ := hfail init.2
        rw [hf] at hfv
        cases hfv
      · simp [Function.update, he]

theorem sentRequests_append (net : Network) (redirects : List String → String → List String) :
    ∀ (a b before : List String),
    sentRequests net redirects before (a ++ b) =
      sentRequests net redirects before a ++ sentRequests net redirects (before ++ a) b := by
  intro a
  induction a with
  | nil => intro b before; simp [sentRequests]
  | cons u rest ih =>
    intro b before
    have h := ih b (before ++ [u])
    simp only [List.append_assoc, List.singleton_append] at h
    simp only [List.cons_append, sentRequests, List.append_assoc]
    exact congrArg (fun l => sentBy net redirects before u ++ l) h

theorem fetchWith_requests (captionURL : String → Option String) (net : Network)
    (redirects : List String → String → List String) (log : List String) (videoId : String) :
    ∃ seg, (fetchWith captionURL net log videoId).2 = log ++ seg ∧
      RequestsOf captionURL net redirects log videoId seg
        (sentRequests net redirects log seg) := by
  have hw : watchURL videoId = "https://www.youtube.com/watch?v=" ++ videoId := rfl
  unfold fetchWith RequestsOf
  rw [← hw]
  cases hp : net log (watchURL videoId) with
  | refused err =>
    exact ⟨[watchURL videoId], rfl, Or.inl ⟨rfl, by simp, by simp [sentRequests]⟩⟩
  | getError err =>
    exact ⟨[watchURL videoId], rfl, Or.inl ⟨rfl, by simp, by simp [sentRequests]⟩⟩
  | readError err =>
    exact ⟨[watchURL videoId], rfl, Or.inl ⟨rfl, by simp, by simp [sentRequests]⟩⟩
  | body page =>
    simp only
    cases hc : captionURL page with
    | none =>
      refine ⟨[watchURL videoId], rfl, Or.inl ⟨rfl, ?_, by simp [sentRequests]⟩⟩
      rintro ⟨page1, url, h1, h2⟩
      simp only [Response.body.injEq] at h1
      subst h1
      rw [hc] at h2
      cases h2
    | some url =>
      refine ⟨[watchURL videoId, url], ?_, Or.inr ⟨page, url, rfl, hc, rfl, ?_⟩⟩
      · simp only
        cases net (log ++ [watchURL videoId]) url <;> simp
      · simp [sentRequests, sentBy, hp]

theorem getWith_trace {α : Type} (captionURL : String → Option String) (net : Network)
    (redirects : List String → String → List String)
    (parse : String → α) : ∀ (videoIds : List String) (init : (String → Option α) × List String),
    ∃ segs wires : List (List String),
      (getWith (fetchWith captionURL net) parse videoIds init).2 = init.2 ++ segs.flatten ∧
      sentRequests net redirects init.2 segs.flatten = wires.flatten ∧
      segs.length = videoIds.length ∧ wires.length = videoIds.length ∧
      ∀ i videoId seg wire, videoIds[i]? = some videoId → segs[i]? = some seg →
        wires[i]? = some wire →
        RequestsOf captionURL net redirects (init.2 ++ (segs.take i).flatten) videoId seg
          wire := by
  intro videoIds
  induction videoIds with
  | nil =>
    intro init
    exact ⟨[], [], by simp [getWith], by simp [sentRequests], rfl, rfl, by simp⟩
  | cons v rest ih =>
    intro init
    rw [getWith_cons]
    obtain ⟨seg0, hlog, hreq⟩ := fetchWith_requests captionURL net redirects init.2 v
    rcases hfv : fetchWith captionURL net init.2 v with ⟨r, log⟩
    rw [hfv] at hlog
    simp only at hlog
    have step : ∀ (st : (String → Option α) × List String), st.2 = log →
        ∃ segs wires : List (List String),
          (getWith (fetchWith captionURL net) parse rest st).2 = init.2 ++ segs.flatten ∧
          sentRequests net redirects init.2 segs.flatten = wires.flatten ∧
          segs.length = (v :: rest).length ∧ wires.length = (v :: rest).length ∧
          ∀ i videoId seg wire, (v :: rest)[i]? = some videoId → segs[i]? = some seg →
            wires[i]? = some wire →
            RequestsOf captionURL net redirects (init.2 ++ (segs.take i).flatten) videoId seg
              wire := by
      intro st hst
      obtain ⟨segs, wires, h1, hw, h2, h2w, h3⟩ := ih st
      refine ⟨seg0 :: segs, sentRequests net redirects init.2 seg0 :: wires, ?_, ?_,
        by simp [h2], by simp [h2w], ?_⟩
      · rw [h1, hst, hlog]; simp
      · rw [List.flatten_cons, sentRequests_append, List.flatten_cons, ← hw, hst, hlog]
      · intro i videoId seg wire hi hs hwi
        cases i with
        | zero =>
          simp only [List.getElem?_cons_zero, Option.some.injEq] at hi hs hwi
          subst hi; subst hs; subst hwi
          simpa using hreq
        | succ j =>
          simp only [List.getElem?_cons_succ] at hi hs hwi
          have := h3 j videoId seg wire hi hs hwi
          rw [hst, hlog] at this
          simpa [List.append_assoc] using this
    cases r with
    | error e => exact step _ rfl
    | ok t => exact step _ rfl

/-! ## Times carried by the feed -/

namespace xml

theorem findStart_mem : ∀ (ts : List Token) (name : Name) (attr : List Attr)
    (body : List Token), findStart ts = some (name, attr, body) →
    Token.StartElement name attr ∈ ts ∧ body <:+ ts := by
  intro ts
  induction ts with
  | nil => intro name attr body h; simp [findStart] at h
  | cons t rest ih =>
    intro name attr body h
    cases t with
    | StartElement n a =>
      simp only [findStart, Option.some.injEq, Prod.mk.injEq] at h
      obtain ⟨h1, h2, h3⟩ := h
      subst h1; subst h2; subst h3
      exact ⟨List.mem_cons_self _ _, List.suffix_cons _ _⟩
    | EndElement n =>
      simp only [findStart] at h
      obtain ⟨h1, h2⟩ := ih _ _ _ h
      exact ⟨List.mem_cons_of_mem _ h1, h2.trans (List.suffix_cons _ _)⟩
    | CharData d =>
      simp only [findStart] at h
      obtain ⟨h1, h2⟩ := ih _ _ _ h
      exact ⟨List.mem_cons_of_mem _ h1, h2.trans (List.suffix_cons _ _)⟩
    | Comment d =>
      simp only [findStart] at h
      obtain ⟨h1, h2⟩ := ih _ _ _ h
      exact ⟨List.mem_cons_of_mem _ h1, h2.trans (List.suffix_cons _ _)⟩
    | ProcInst a b =>
      simp only [findStart] at h
      obtain ⟨h1, h2⟩ := ih _ _ _ h
      exact ⟨List.mem_cons_of_mem _ h1, h2.trans (List.suffix_cons _ _)⟩
    | Directive d =>
      simp only [findStart] at h
      obtain ⟨h1, h2⟩ := ih _ _ _ h
      exact ⟨List.mem_cons_of_mem _ h1, h2.trans (List.suffix_cons _ _)⟩

theorem skipLoop_suffix : ∀ (ts : List Token) (k : Nat) (r : List Token),
    skipLoop k ts = some r → r <:+ ts := by
  intro ts
  induction ts with
  | nil => intro k r h; simp [skipLoop] at h
  | cons t rest ih =>
    intro k r h
    cases t with
    | StartElement n a =>
      simp only [skipLoop] at h
      exact (ih _ _ h).trans (List.suffix_cons _ _)
    | EndElement n =>
      simp only [skipLoop] at h
      split at h
      · simp only [Option.some.injEq] at h; subst h; exact List.suffix_cons _ _
      · exact (ih _ _ h).trans (List.suffix_cons _ _)
    | CharData d => simp only [skipLoop] at h; exact (ih _ _ h).trans (List.suffix_cons _ _)
    | Comment d => simp only [skipLoop] at h; exact (ih _ _ h).trans (List.suffix_cons _ _)
    | ProcInst a b => simp only [skipLoop] at h; exact (ih _ _ h).trans (List.suffix_cons _ _)
    | Directive d => simp only [skipLoop] at h; exact (ih _ _ h).trans (List.suffix_cons _ _)

theorem readCharData_suffix : ∀ (n : Nat) (data : String) (ts : List Token) (x : String)
    (r : List Token), readCharData n data ts = some (x, r) → r <:+ ts := by
  intro n
  induction n with
  | zero => intro data ts x r h; simp [readCharData] at h
  | succ n ih =>
    intro data ts x r h
    cases ts with
    | nil => simp [readCharData] at h
    | cons t rest =>
      cases t with
      | StartElement nm a =>
        simp only [readCharData, Skip] at h
        cases hs : skipLoop 0 rest with
        | none => simp [hs] at h
        | some r1 =>
          simp only [hs] at h
          exact ((ih _ _ _ _ h).trans (skipLoop_suffix _ _ _ hs)).trans (List.suffix_cons _ _)
      | EndElement nm =>
        simp only [readCharData, Option.some.injEq, Prod.mk.injEq] at h
        rw [← h.2]; exact List.suffix_cons _ _
      | CharData d =>
        simp only [readCharData] at h; exact (ih _ _ _ _ h).trans (List.suffix_cons _ _)
      | Comment d =>
        simp only [readCharData] at h; exact (ih _ _ _ _ h).trans (List.suffix_cons _ _)
      | ProcInst a b =>
        simp only [readCharData] at h; exact (ih _ _ _ _ h).trans (List.suffix_cons _ _)
      | Directive d =>
        simp only [readCharData] at h; exact (ih _ _ _ _ h).trans (List.suffix_cons _ _)

end xml

theorem nonnegOrInvalid_le (lib : Stdlib) (v : String) (x : Float64)
    (h : nonnegOrInvalid lib v = true) (hx : copyFloat lib v = some x) : (0 : Float64) ≤ x := by
  unfold nonnegOrInvalid at h
  rw [hx] at h
  exact h

namespace transcribe

theorem parse_nonneg_attrs (lib : Stdlib) (plainData : String)
    (h : timesNonneg lib (lib.Token plainData) = true) :
    ∀ e ∈ parseTranscript lib plainData,
      (0 : Float64) ≤ e.Start ∧ (0 : Float64) ≤ e.Duration := by
  intro e he
  unfold parseTranscript at he
  rcases parse_root lib plainData with
    h0 | ⟨name, attr, body, text, start, dur, hf, _, hs, hd, h1⟩
  · rw [h0] at he; simp at he
  · rw [h1] at he
    simp only [List.mem_singleton] at he
    subst he
    have hmem := (xml.findStart_mem _ _ _ _ hf).1
    unfold timesNonneg at h
    rw [List.all_eq_true] at h
    have hattr := h _ hmem
    simp only [List.all_eq_true] at hattr
    have key : ∀ (nm : String), nm = "start" ∨ nm = "dur" → ∀ x,
        attrValue lib nm attr = some x → (0 : Float64) ≤ x := by
      intro nm hnm x hx
      unfold attrValue at hx
      cases hl : xml.lastAttr nm attr with
      | none => simp [hl] at hx; subst hx; decide
      | some v =>
        simp [hl] at hx
        obtain ⟨a, ha, hn, hv⟩ := xml.lastAttr_mem nm attr v hl
        have hb := hattr a ha
        have hname : (a.Name.Local == "start" || a.Name.Local == "dur") = true := by
          rcases hnm with h2 | h2 <;> simp [hn, h2]
        simp only [hname, Bool.not_true, Bool.false_or] at hb
        exact nonnegOrInvalid_le lib a.Value x hb (by rw [hv]; exact hx)
    exact ⟨key "start" (Or.inl rfl) start hs, key "dur" (Or.inr rfl) dur hd⟩

end transcribe

namespace transcript

theorem timesNonneg_suffix (lib : Stdlib) : ∀ (pre ts : List xml.Token),
    timesNonneg lib (pre ++ ts) = true → timesNonneg lib ts = true := by
  intro pre
  induction pre with
  | nil => intro ts h; simpa using h
  | cons t rest ih =>
    intro ts h
    cases t with
    | StartElement n a =>
      simp only [List.cons_append, timesNonneg, Bool.and_eq_true] at h
      exact ih ts h.2
    | EndElement n => simp only [List.cons_append, timesNonneg] at h; exact ih ts h
    | CharData d => simp only [List.cons_append, timesNonneg] at h; exact ih ts h
    | Comment d => simp only [List.cons_append, timesNonneg] at h; exact ih ts h
    | ProcInst a b => simp only [List.cons_append, timesNonneg] at h; exact ih ts h
    | Directive d => simp only [List.cons_append, timesNonneg] at h; exact ih ts h

theorem timesNonneg_of_suffix (lib : Stdlib) (r ts : List xml.Token) (hs : r <:+ ts)
    (h : timesNonneg lib ts = true) : timesNonneg lib r = true := by
  obtain ⟨pre, hp⟩ := hs
  rw [← hp] at h
  exact timesNonneg_suffix lib pre r h

theorem readStruct_nonneg (lib : Stdlib) : ∀ (n : Nat) (e : TranscriptEntry)
    (ts : List xml.Token) (r : TranscriptEntry) (rest : List xml.Token),
    timesNonneg lib ts = true →
    ((0 : Float64) ≤ e.Start ∧ (0 : Float64) ≤ e.Duration) →
    readStruct lib n e ts = some (r, rest) →
    (0 : Float64) ≤ r.Start ∧ (0 : Float64) ≤ r.Duration := by
  intro n
  induction n with
  | zero => intro e ts r rest _ _ h; simp [readStruct] at h
  | succ n ih =>
    intro e ts r rest hts he h
    cases ts with
    | nil => simp [readStruct] at h
    | cons t tl =>
      cases t with
      | StartElement nm a =>
        simp only [timesNonneg, Bool.and_eq_true] at hts
        obtain ⟨hhere, htl⟩ := hts
        simp only [readStruct] at h
        have field : ∀ data rest1, xml.readCharData (tl.length + 1) "" tl = some (data, rest1) →
            xml.ownCharData 0 tl = some data ∧ timesNonneg lib rest1 = true := by
          intro data rest1 hr
          have ht := xml.readCharData_text (tl.length + 1) "" tl (by omega)
          rw [hr] at ht
          refine ⟨?_, timesNonneg_of_suffix lib _ _ (xml.readCharData_suffix _ _ _ _ _ hr) htl⟩
          cases ho : xml.ownCharData 0 tl with
          | none => simp [ho] at ht
          | some u => simp [ho] at ht; simp [ht]
        split at h
        · cases hr : xml.readCharData (tl.length + 1) "" tl with
          | none => simp [hr] at h
          | some q =>
            obtain ⟨data, rest1⟩ := q
            simp only [hr] at h
            refine ih _ _ _ _ (field data rest1 hr).2 ?_ h
            exact he
        · split at h
          · rename_i hT hS
            cases hr : xml.readCharData (tl.length + 1) "" tl with
            | none => simp [hr] at h
            | some q =>
              obtain ⟨data, rest1⟩ := q
              simp only [hr] at h
              obtain ⟨ho, hrest⟩ := field data rest1 hr
              cases hc : copyFloat lib data with
              | none => simp [hc] at h
              | some x =>
                simp only [hc] at h
                simp only [hS, true_or, if_true, ho] at hhere
                refine ih _ _ _ _ hrest ?_ h
                exact ⟨nonnegOrInvalid_le lib data x hhere hc, he.2⟩
          · split at h
            · rename_i hT hS hD
              cases hr : xml.readCharData (tl.length + 1) "" tl with
              | none => simp [hr] at h
              | some q =>
                obtain ⟨data, rest1⟩ := q
                simp only [hr] at h
                obtain ⟨ho, hrest⟩ := field data rest1 hr
                cases hc : copyFloat lib data with
                | none => simp [hc] at h
                | some x =>
                  simp only [hc] at h
                  simp only [hD, or_true, if_true, ho] at hhere
                  refine ih _ _ _ _ hrest ?_ h
                  exact ⟨he.1, nonnegOrInvalid_le lib data x hhere hc⟩
            · cases hs : xml.Skip tl with
              | none => simp [hs] at h
              | some r1 =>
                simp only [hs] at h
                exact ih _ _ _ _
                  (timesNonneg_of_suffix lib _ _ (xml.skipLoop_suffix _ _ _ hs) htl) he h
      | EndElement nm =>
        simp only [readStruct, Option.some.injEq, Prod.mk.injEq] at h
        rw [← h.1]; exact he
      | CharData d =>
        simp only [readStruct] at h
        simp only [timesNonneg] at hts
        exact ih _ _ _ _ hts he h
      | Comment d =>
        simp only [readStruct] at h
        simp only [timesNonneg] at hts
        exact ih _ _ _ _ hts he h
      | ProcInst a b =>
        simp only [readStruct] at h
        simp only [timesNonneg] at hts
        exact ih _ _ _ _ hts he h
      | Directive d =>
        simp only [readStruct] at h
        simp only [timesNonneg] at hts
        exact ih _ _ _ _ hts he h

theorem parse_nonneg_elements (lib : Stdlib) (plainData : String)
    (h : timesNonneg lib (lib.Token plainData) = true) :
    ∀ e ∈ parseTranscript lib plainData,
      (0 : Float64) ≤ e.Start ∧ (0 : Float64) ≤ e.Duration := by
  intro e he
  unfold parseTranscript TranscriptParser.parse Unmarshal at he
  cases hf : xml.findStart (lib.Token plainData) with
  | none => simp [hf] at he
  | some p =>
    obtain ⟨name, attr, body⟩ := p
    simp only [hf] at he
    unfold unmarshalEntry at he
    cases hr : readStruct lib (body.length + 1) ⟨"", 0, 0⟩ body with
    | none => simp [hr] at he
    | some q =>
      obtain ⟨r, rest⟩ := q
      simp only [hr, List.nil_append, List.mem_singleton] at he
      subst he
      have hb := timesNonneg_of_suffix lib _ _ (xml.findStart_mem _ _ _ _ hf).2 h
      exact readStruct_nonneg lib _ _ _ _ _ hb ⟨by decide, by decide⟩ hr

end transcript

/-! ## Properties C1 to C10 -/

/-- C1: with a network whose answers depend on the URL only, so that
`fetchTranscript` is a function from the identifier to a feed or an error, the
map `Get` returns (either copy) has exactly the listed identifiers whose fetch
succeeds as keys, each with value `parseTranscript feed`; an identifier whose
fetch fails is absent, whatever its position in the list, and so is every
identifier not listed. -/
theorem Get_keys_are_successful_fetches (lib : Stdlib) (f : String → Response)
    (videoIds : List String) (videoId : String) :
    (transcribe.Get lib (Network.fixed f) videoIds).1 videoId =
      (if videoId ∈ videoIds then
        match (transcribe.fetchTranscript (Network.fixed f) [] videoId).1 with
        | .ok feed => some (transcribe.parseTranscript lib feed)
        | .error _ => none
      else none) ∧
    (transcript.Get lib (Network.fixed f) videoIds).1 videoId =
      (if videoId ∈ videoIds then
        match (transcript.fetchTranscript (Network.fixed f) [] videoId).1 with
        | .ok feed => some (transcript.parseTranscript lib feed)
        | .error _ => none
      else none) :=
  ⟨transcribe_Get_map lib f videoIds videoId, transcript_Get_map lib f videoIds videoId⟩

/-- C2 (what the code does on the specification's feed): both copies return one
entry with empty text and zero times, decoded from the root element
`transcript`; the two caption nodes are skipped. -/
theorem parseTranscript_specFeed :
    transcribe.parseTranscript goStd specFeed = [⟨"", 0, 0⟩] ∧
    transcript.parseTranscript goStd specFeed = [⟨"", 0, 0⟩] := by
  constructor <;> decide

/-- C3, counterexample: the feed of `abc123` is fetched and is cut off in the
middle of a tag, `xml.Unmarshal` fails on it, and `abc123` is a key of the map
`Get` returns, with the nil sequence as value. Moreover a feed that is
malformed only after the end of its root element unmarshals without error:
decoding stops at the root's end element. -/
theorem Get_keeps_key_of_malformed_feed :
    (transcribe.fetchTranscript (scenarioNet brokenFeed) [] "abc123").1 = .ok brokenFeed ∧
    transcribe.Unmarshal goStd brokenFeed [] = none ∧
    (transcribe.Get goStd (scenarioNet brokenFeed) ["abc123"]).1 "abc123" = some [] ∧
    (transcribe.Get goStd (scenarioNet brokenFeed) ["abc123"]).1 "abc123" ≠ none ∧
    transcribe.Unmarshal goStd trailingFeed [] = some [⟨"", 0, 0⟩] := by
  refine ⟨by rfl, by decide, by decide, by decide, by decide⟩

/-- C3, amended: with a network whose answers depend on the URL only, for every
listed identifier whose feed is fetched successfully and on whose feed
`xml.Unmarshal` returns an error, `parseTranscript` returns nil and the
identifier is a key of the map `Get` returns with the nil sequence as value;
the value of every other identifier is the same as in a call without the
malformed one. Both copies. -/
theorem Get_malformed_feed_is_nil_entry (lib : Stdlib) (f : String → Response)
    (videoIds : List String) (videoId feed : String) (hmem : videoId ∈ videoIds) :
    ((transcribe.fetchTranscript (Network.fixed f) [] videoId).1 = .ok feed →
      transcribe.Unmarshal lib feed [] = none →
      transcribe.parseTranscript lib feed = [] ∧
      (transcribe.Get lib (Network.fixed f) videoIds).1 videoId = some [] ∧
      ∀ other, other ≠ videoId →
        (transcribe.Get lib (Network.fixed f) videoIds).1 other =
          (transcribe.Get lib (Network.fixed f) (videoIds.filter (fun v => v ≠ videoId))).1
            other) ∧
    ((transcript.fetchTranscript (Network.fixed f) [] videoId).1 = .ok feed →
      transcript.Unmarshal lib feed [] = none →
      transcript.parseTranscript lib feed = [] ∧
      (transcript.Get lib (Network.fixed f) videoIds).1 videoId = some [] ∧
      ∀ other, other ≠ videoId →
        (transcript.Get lib (Network.fixed f) videoIds).1 other =
          (transcript.Get lib (Network.fixed f) (videoIds.filter (fun v => v ≠ videoId))).1
            other) := by
  constructor
  · intro hfetch hbad
    have hparse : transcribe.parseTranscript lib feed = [] := by
      simp [transcribe.parseTranscript, transcribe.TranscriptParser.parse, hbad]
    refine ⟨hparse, ?_, ?_⟩
    · rw [transcribe_Get_map, if_pos hmem, hfetch]
      simp [hparse]
    · intro other hne
      rw [transcribe_Get_map, transcribe_Get_map]
      simp [List.mem_filter, hne]
  · intro hfetch hbad
    have hparse : transcript.parseTranscript lib feed = [] := by
      simp [transcript.parseTranscript, transcript.TranscriptParser.parse, hbad]
    refine ⟨hparse, ?_, ?_⟩
    · rw [transcript_Get_map, if_pos hmem, hfetch]
      simp [hparse]
    · intro other hne
      rw [transcript_Get_map, transcript_Get_map]
      simp [List.mem_filter, hne]

/-- C3, witness: in the scenario with a feed cut off in the middle of a tag,
`abc123` is fetched, its feed does not unmarshal, and both copies keep the key
with the nil sequence. -/
theorem Get_malformed_feed_is_nil_entry_witness :
    "abc123" ∈ ["abc123", "noCaptions999"] ∧
    (transcribe.fetchTranscript (Network.fixed (scenarioAnswers brokenFeed)) [] "abc123").1 =
      .ok brokenFeed ∧
    transcribe.Unmarshal goStd brokenFeed [] = none ∧
    (transcribe.Get goStd (Network.fixed (scenarioAnswers brokenFeed))
      ["abc123", "noCaptions999"]).1 "abc123" = some [] ∧
    (transcript.fetchTranscript (Network.fixed (scenarioAnswers brokenFeed)) [] "abc123").1 =
      .ok brokenFeed ∧
    transcript.Unmarshal goStd brokenFeed [] = none ∧
    (transcript.Get goStd (Network.fixed (scenarioAnswers brokenFeed))
      ["abc123", "noCaptions999"]).1 "abc123" = some [] := by
  have hmem : "abc123" ∈ ["abc123", "noCaptions999"] := by decide
  have h1 : (transcribe.fetchTranscript (Network.fixed (scenarioAnswers brokenFeed)) []
      "abc123").1 = .ok brokenFeed := by rfl
  have h2 : transcribe.Unmarshal goStd brokenFeed [] = none := by decide
  have h3 : (transcript.fetchTranscript (Network.fixed (scenarioAnswers brokenFeed)) []
      "abc123").1 = .ok brokenFeed := by rfl
  have h4 : transcript.Unmarshal goStd brokenFeed [] = none := by decide
  have key := Get_malformed_feed_is_nil_entry goStd (scenarioAnswers brokenFeed)
    ["abc123", "noCaptions999"] "abc123" brokenFeed hmem
  exact ⟨hmem, h1, h2, (key.1 h1 h2).2.1, h3, h4, (key.2 h3 h4).2.1⟩

/-- C4: when the page of an identifier arrives and lacks the caption marker (in
the `transcribe` copy: no part of it is the marker text of the expression,
followed by a run without newline and a double quote; in the `transcript`
copy: it does not contain `timedtext`), `fetchTranscript` fails with the error
`timedtext URL not found` after the page request alone, and the identifier is
absent from the map `Get` returns. -/
theorem missing_marker_not_found (lib : Stdlib) (net : Network) (videoIds : List String)
    (videoId page : String) (hpage : ∀ log, net log (watchURL videoId) = .body page) :
    ((¬ ∃ pre frag post, page.data = pre ++ transcribe.marker.data ++ frag ++ '"' :: post ∧
        '\n' ∉ frag) →
      (∀ log, transcribe.fetchTranscript net log videoId =
        (.error "timedtext URL not found", log ++ [watchURL videoId])) ∧
      (transcribe.Get lib net videoIds).1 videoId = none) ∧
    ((¬ "timedtext".data <:+: page.data) →
      (∀ log, transcript.fetchTranscript net log videoId =
        (.error "timedtext URL not found", log ++ [watchURL videoId])) ∧
      (transcript.Get lib net videoIds).1 videoId = none) := by
  constructor
  · intro h
    have hf : ∀ log, fetchWith transcribe.captionURL net log videoId =
        (.error "timedtext URL not found", log ++ [watchURL videoId]) := fun log =>
      fetchWith_not_found _ net log videoId page (hpage log) (transcribe_captionURL_none page h)
    refine ⟨fun log => by rw [transcribe_fetchTranscript_eq]; exact hf log, ?_⟩
    rw [transcribe_Get_eq]
    exact getWith_absent _ _ videoId (fun log => ⟨_, _, hf log⟩) videoIds _
  · intro h
    have hf : ∀ log, fetchWith transcript.captionURL net log videoId =
        (.error "timedtext URL not found", log ++ [watchURL videoId]) := fun log =>
      fetchWith_not_found _ net log videoId page (hpage log) (transcript_captionURL_none page h)
    refine ⟨fun log => by rw [transcript_fetchTranscript_eq]; exact hf log, ?_⟩
    rw [transcript_Get_eq]
    exact getWith_absent _ _ videoId (fun log => ⟨_, _, hf log⟩) videoIds _

/-- C4, witness: the page of `noCaptions999` in the scenario lacks both markers;
both copies fail with `timedtext URL not found` and leave the identifier out. -/
theorem missing_marker_not_found_witness :
    (∀ log, scenarioNet specFeed log (watchURL "noCaptions999") = .body plainPage) ∧
    (¬ ∃ pre frag post,
        plainPage.data = pre ++ transcribe.marker.data ++ frag ++ '"' :: post ∧ '\n' ∉ frag) ∧
    (¬ "timedtext".data <:+: plainPage.data) ∧
    ((∀ log, transcribe.fetchTranscript (scenarioNet specFeed) log "noCaptions999" =
        (.error "timedtext URL not found", log ++ [watchURL "noCaptions999"])) ∧
      (transcribe.Get goStd (scenarioNet specFeed) ["abc123", "noCaptions999"]).1
        "noCaptions999" = none) ∧
    ((∀ log, transcript.fetchTranscript (scenarioNet specFeed) log "noCaptions999" =
        (.error "timedtext URL not found", log ++ [watchURL "noCaptions999"])) ∧
      (transcript.Get goStd (scenarioNet specFeed) ["abc123", "noCaptions999"]).1
        "noCaptions999" = none) := by
  have hpage : ∀ log, scenarioNet specFeed log (watchURL "noCaptions999") = .body plainPage :=
    fun _ => by
      show scenarioAnswers specFeed (watchURL "noCaptions999") = .body plainPage
      decide
  have h1 : ¬ ∃ pre frag post,
      plainPage.data = pre ++ transcribe.marker.data ++ frag ++ '"' :: post ∧ '\n' ∉ frag := by
    rintro ⟨pre, frag, post, h, _⟩
    have hq : '"' ∈ plainPage.data := by rw [h]; simp
    exact absurd hq (by decide)
  have h2 : ¬ "timedtext".data <:+: plainPage.data := by decide
  have key := missing_marker_not_found goStd (scenarioNet specFeed)
    ["abc123", "noCaptions999"] "noCaptions999" plainPage hpage
  exact ⟨hpage, h1, h2, key.1 h1, key.2 h2⟩

/-- C5 (what the code does on a fragment with escaped slashes): the `transcribe`
copy turns the encoded ampersand into `&` and keeps every single backslash,
because its second replacement removes only two backslashes in a row; the
replacements of the `transcript` copy, applied to the same fragment, remove
them all. -/
theorem captionURL_keeps_single_backslashes :
    transcribe.captionURL (markerPage escapedURL) =
      some "https:\\/\\/www.youtube.com\\/api\\/timedtext?v=abc123&lang=en" ∧
    ReplaceAll (ReplaceAll escapedURL "\\u0026" "&") "\\" "" =
      "https://www.youtube.com/api/timedtext?v=abc123&lang=en" := by
  constructor <;> decide

/-- C6, counterexample: a root element with `start="-1"` and `dur="-2"` parses, in
the `transcribe` copy, to an entry whose start and duration are negative; so do
child elements `Start` and `Duration` holding -1 and -2 in the `transcript`
copy. -/
theorem parseTranscript_negative_times :
    transcribe.parseTranscript goStd negativeNode = [⟨"x", fNeg1, fNeg2⟩] ∧
    transcript.parseTranscript goStd negativeElements = [⟨"", fNeg1, fNeg2⟩] ∧
    ¬ ((0 : Float64) ≤ fNeg1) ∧ ¬ ((0 : Float64) ≤ fNeg2) ∧
    transcribe.timesNonneg goStd (goStd.Token negativeNode) = false ∧
    transcript.timesNonneg goStd (goStd.Token negativeElements) = false := by
  refine ⟨by decide, by decide, by decide, by decide, by decide, by decide⟩

/-- C6, amended: for every feed text and both copies, the entries of a result of
`parseTranscript` are non-decreasing in start time, and every entry's start and
duration are non-negative provided every time the feed carries converts to a
non-negative float64: in the `transcribe` copy the value of every `start` and
`dur` attribute of the feed, in the `transcript` copy the character data of
every `Start` and `Duration` element of the feed. -/
theorem parseTranscript_sorted_nonneg (lib : Stdlib) (plainData : String) :
    (List.Pairwise (fun a b => a.Start ≤ b.Start) (transcribe.parseTranscript lib plainData) ∧
      (transcribe.timesNonneg lib (lib.Token plainData) = true →
        ∀ e ∈ transcribe.parseTranscript lib plainData,
          (0 : Float64) ≤ e.Start ∧ (0 : Float64) ≤ e.Duration)) ∧
    (List.Pairwise (fun a b => a.Start ≤ b.Start) (transcript.parseTranscript lib plainData) ∧
      (transcript.timesNonneg lib (lib.Token plainData) = true →
        ∀ e ∈ transcript.parseTranscript lib plainData,
          (0 : Float64) ≤ e.Start ∧ (0 : Float64) ≤ e.Duration)) := by
  refine ⟨⟨?_, transcribe.parse_nonneg_attrs lib plainData⟩,
    ⟨?_, transcript.parse_nonneg_elements lib plainData⟩⟩
  · unfold transcribe.parseTranscript
    rcases transcribe.parse_root lib plainData with h | ⟨_, _, _, _, _, _, _, _, _, _, h⟩ <;>
      rw [h] <;> simp
  · unfold transcript.parseTranscript
    rcases transcript.parse_single lib plainData with h | ⟨_, h⟩ <;> rw [h] <;> simp

/-- C6, witness: the times of the caption node (attributes 1.5 and 2.0) and of the
element document (child elements 1.5 and 2.0) are non-negative, and so are the
times of the entries both copies return for them. -/
theorem parseTranscript_sorted_nonneg_witness :
    transcribe.timesNonneg goStd (goStd.Token captionNode) = true ∧
    (∀ e ∈ transcribe.parseTranscript goStd captionNode,
      (0 : Float64) ≤ e.Start ∧ (0 : Float64) ≤ e.Duration) ∧
    transcribe.parseTranscript goStd captionNode = [⟨"Hello", f1_5, f2_0⟩] ∧
    transcript.timesNonneg goStd (goStd.Token elementNode) = true ∧
    (∀ e ∈ transcript.parseTranscript goStd elementNode,
      (0 : Float64) ≤ e.Start ∧ (0 : Float64) ≤ e.Duration) ∧
    transcript.parseTranscript goStd elementNode = [⟨"Hello", f1_5, f2_0⟩] := by
  have h1 : transcribe.timesNonneg goStd (goStd.Token captionNode) = true := by decide
  have h2 : transcript.timesNonneg goStd (goStd.Token elementNode) = true := by decide
  exact ⟨h1, (parseTranscript_sorted_nonneg goStd captionNode).1.2 h1, by decide,
    h2, (parseTranscript_sorted_nonneg goStd elementNode).2.2 h2, by decide⟩

/-- C7, counterexample: for a listed identifier with a control character the
page call is made and refused by `http.Get`, so no page request goes out for
it; and when the page answer is a redirect that `http.Get` follows, the page
call of `abc123` causes two requests, the second to another URL. -/
theorem Get_page_request_not_sent :
    stringContainsCTLByte ("https://www.youtube.com/watch?v=" ++ controlId) = true ∧
    (transcribe.Get goStd (strictNet specFeed) [controlId]).2 =
      ["https://www.youtube.com/watch?v=" ++ controlId] ∧
    sentRequests (strictNet specFeed) noRedirects []
      (transcribe.Get goStd (strictNet specFeed) [controlId]).2 = [] ∧
    sentRequests (strictNet specFeed) consentRedirect []
      (transcribe.Get goStd (strictNet specFeed) ["abc123"]).2 =
        ["https://www.youtube.com/watch?v=abc123", "https://consent.youtube.com/m",
          cleanURL] := by
  refine ⟨by decide, by decide, by decide, by decide⟩

/-- C7, amended: for every list of identifiers, either copy and any network, the
calls of `http.Get` that `Get` makes are one segment per listed identifier in
input order: the page call with the URL `https://www.youtube.com/watch?v=`
followed by the identifier unchanged, alone when the page does not arrive or
holds no caption URL, and otherwise followed by exactly one call with the
caption URL taken from that page; no call is repeated. The outbound requests
are, segment by segment, those of these calls: none for a call `http.Get`
refuses before sending, otherwise one request to the URL of the call followed
by the requests of the redirects `http.Get` follows. -/
theorem Get_requests_sequential (lib : Stdlib) (net : Network)
    (redirects : List String → String → List String) (videoIds : List String) :
    SequentialTrace transcribe.captionURL net redirects videoIds
      (transcribe.Get lib net videoIds).2
      (sentRequests net redirects [] (transcribe.Get lib net videoIds).2) ∧
    SequentialTrace transcript.captionURL net redirects videoIds
      (transcript.Get lib net videoIds).2
      (sentRequests net redirects [] (transcript.Get lib net videoIds).2) := by
  constructor
  · rw [transcribe_Get_eq]
    obtain ⟨segs, wires, h1, hw, h2, h2w, h3⟩ := getWith_trace transcribe.captionURL net
      redirects (transcribe.parseTranscript lib) videoIds (fun _ => none, [])
    simp only [List.nil_append] at h1 h3
    exact ⟨segs, wires, h1, by rw [h1]; exact hw, h2, h2w, h3⟩
  · rw [transcript_Get_eq]
    obtain ⟨segs, wires, h1, hw, h2, h2w, h3⟩ := getWith_trace transcript.captionURL net
      redirects (transcript.parseTranscript lib) videoIds (fun _ => none, [])
    simp only [List.nil_append] at h1 h3
    exact ⟨segs, wires, h1, by rw [h1]; exact hw, h2, h2w, h3⟩

/-- C8 (what the code does on a single caption node): the `transcribe` copy reads
the attributes and the character data of the root element, the `transcript`
copy reads none of them. -/
theorem parseTranscript_copies_differ :
    transcribe.parseTranscript goStd captionNode = [⟨"Hello", f1_5, f2_0⟩] ∧
    transcript.parseTranscript goStd captionNode = [⟨"", 0, 0⟩] := by
  constructor <;> decide

/-- C9: for every input text, `parse` of either copy returns nil or exactly one
entry. In the `transcribe` copy that entry is decoded from the document's root
element (the first start element): `Text` is the root's own character data,
`Start` and `Duration` are its `start` and `dur` attributes (0 when absent);
child elements add no entry. The result is nil exactly when the document has no
start element, a `start` or `dur` attribute of the root does not convert to a
float64, or the tokens end before the root element does. -/
theorem parse_nil_or_single_root_entry (lib : Stdlib) (PlainData : String) :
    (transcribe.TranscriptParser.parse lib ⟨PlainData⟩ = [] ∨
      ∃ name attr body text start dur,
        xml.findStart (lib.Token PlainData) = some (name, attr, body) ∧
        xml.ownCharData 0 body = some text ∧
        attrValue lib "start" attr = some start ∧
        attrValue lib "dur" attr = some dur ∧
        transcribe.TranscriptParser.parse lib ⟨PlainData⟩ = [⟨text, start, dur⟩]) ∧
    (transcribe.TranscriptParser.parse lib ⟨PlainData⟩ = [] ↔
      ∀ name attr body, xml.findStart (lib.Token PlainData) = some (name, attr, body) →
        (∃ a ∈ attr, (a.Name.Local = "start" ∨ a.Name.Local = "dur") ∧
          copyFloat lib a.Value = none) ∨
        xml.ownCharData 0 body = none) ∧
    (transcript.TranscriptParser.parse lib ⟨PlainData⟩ = [] ∨
      ∃ e, transcript.TranscriptParser.parse lib ⟨PlainData⟩ = [e]) :=
  ⟨transcribe.parse_root lib PlainData, transcribe.parse_nil_iff lib PlainData,
    transcript.parse_single lib PlainData⟩

/-- C10: in the `transcript` copy, on every page that contains `timedtext` the
match bounds are in range, the slice between them is `timedtext` itself, and
the caption request goes to `https://www.youtube.com/api/timedtext`, whatever
else the page holds. -/
theorem transcript_caption_url_fixed (net : Network) (log : List String)
    (videoId page : String) (hpage : net log (watchURL videoId) = .body page)
    (hmark : "timedtext".data <:+: page.data) :
    (∃ lo hi, transcript.FindStringIndex page = some (lo, hi) ∧ lo ≤ hi ∧ hi ≤ page.length ∧
      transcript.slice page lo hi = "timedtext") ∧
    (transcript.fetchTranscript net log videoId).2 =
      log ++ [watchURL videoId, "https://www.youtube.com/api/timedtext"] := by
  refine ⟨transcript.FindStringIndex_of_infix page hmark, ?_⟩
  rw [transcript_fetchTranscript_eq]
  unfold fetchWith
  simp only [hpage, transcript.captionURL_of_infix page hmark]
  cases net (log ++ [watchURL videoId]) "https://www.youtube.com/api/timedtext" <;> simp

/-- C10, witness: the scenario's page of `abc123`, whose embedded URL carries a
query string, still leads to the bare URL. -/
theorem transcript_caption_url_fixed_witness :
    scenarioNet specFeed [] (watchURL "abc123") = .body (markerPage cleanURL) ∧
    "timedtext".data <:+: (markerPage cleanURL).data ∧
    (transcript.fetchTranscript (scenarioNet specFeed) [] "abc123").2 =
      [] ++ [watchURL "abc123", "https://www.youtube.com/api/timedtext"] := by
  have hpage : scenarioNet specFeed [] (watchURL "abc123") = .body (markerPage cleanURL) := by
    decide
  have hmark : "timedtext".data <:+: (markerPage cleanURL).data := by decide
  exact ⟨hpage, hmark,
    (transcript_caption_url_fixed (scenarioNet specFeed) [] "abc123" _ hpage hmark).2⟩

/-! ## The scenario of the specification, section 8 -/

/-- The scenario of the specification run on the `transcribe` copy: the map holds
`abc123` with the single entry decoded from the root element, `noCaptions999`
is absent, and three requests are made. -/
theorem Get_scenario :
    (transcribe.Get goStd (scenarioNet specFeed) ["abc123", "noCaptions999"]).1 "abc123" =
      some [⟨"", 0, 0⟩] ∧
    (transcribe.Get goStd (scenarioNet specFeed) ["abc123", "noCaptions999"]).1
      "noCaptions999" = none ∧
    (transcribe.Get goStd (scenarioNet specFeed) ["abc123", "noCaptions999"]).2 =
      [watchURL "abc123", cleanURL, watchURL "noCaptions999"] := by
  refine ⟨by decide, by decide, by decide⟩
